import Mathlib

/-!
Verification development for the `backtrace-parser` crate.

The crate contains two implementations of the same textual-backtrace parser:

* a combinator-based one (`src/parse.rs`, built on the `combine` crate), which
  is embedded below in namespace `Comb`, combinator by combinator;
* a grammar-engine one (`src/lib.rs` / `src/parser.rs`, built on the `pest`
  crate).  The tree-walking extraction code of `src/lib.rs` is embedded in
  namespace `LibRs`; the grammar file `grammar.pest` itself is not part of the
  sources, so the grammar/engine is modelled from the specification in
  namespace `Pest`.

Machine integers are modelled as `Nat` with explicit range checks
(`parse::<u64>` / `parse::<u32>` fail exactly when the value does not fit the
width).  Borrowed `&str` / `Path` views are modelled as `List Char` values.
-/

namespace Backtrace

abbrev Input := List Char

/-- The symbol record.  `src/lib.rs` calls it `Symbol` (fields `name`,
`filename`, `lineno`); the eager implementations build the identically
shaped `ParsedSymbol`.  A Rust `Path` is a thin wrapper around the path
string, so `filename` is modelled as the underlying character list. -/
structure Symbol where
  name : Option (List Char)
  filename : Option (List Char)
  lineno : Option Nat
deriving DecidableEq, Repr

/-- `ParsedFrame { symbols }` as built by `src/parse.rs`. -/
structure ParsedFrame where
  symbols : List Symbol
deriving DecidableEq, Repr

/-- `ParsedBacktrace { frames }` as built by `src/parse.rs`. -/
structure ParsedBacktrace where
  frames : List ParsedFrame
deriving DecidableEq, Repr

/-- Numeric value of a decimal digit string (the strings fed to it always
consist of ASCII digits, as guaranteed by `take_while1(is_digit)`). -/
def digitsToNat (l : List Char) : Nat :=
  l.foldl (fun n c => n * 10 + (c.toNat - 48)) 0

/-- Numeric value of one hex digit (`0-9`, `a-f`, `A-F`). -/
def hexVal (c : Char) : Nat :=
  if c.isDigit then c.toNat - 48
  else if 97 ≤ c.toNat then c.toNat - 87
  else c.toNat - 55

/-- Numeric value of a hex digit string. -/
def hexToNat (l : List Char) : Nat :=
  l.foldl (fun n c => n * 16 + hexVal c) 0

/-- Rust `str::parse::<u64>` on an all-digit string: fails exactly on
64-bit overflow. -/
def parseU64 (l : List Char) : Option Nat :=
  if digitsToNat l < 2 ^ 64 then some (digitsToNat l) else none

/-- Rust `str::parse::<u32>` on an all-digit string: fails exactly on
32-bit overflow. -/
def parseU32 (l : List Char) : Option Nat :=
  if digitsToNat l < 2 ^ 32 then some (digitsToNat l) else none

/-- Rust `u64::from_str_radix(s, 16)` on an all-hex-digit string. -/
def parseHexU64 (l : List Char) : Option Nat :=
  if hexToNat l < 2 ^ 64 then some (hexToNat l) else none

/-- Rust `char::is_ascii_hexdigit`. -/
def isHexDigitChar (c : Char) : Bool :=
  c.isDigit || (97 ≤ c.toNat && c.toNat ≤ 102) || (65 ≤ c.toNat && c.toNat ≤ 70)

/-! ## The combinator implementation (`src/parse.rs`)

A `combine` parser over `&str` is modelled as a function from the remaining
input to an optional (value, rest) pair.  Every alternative and every
repetition body in `src/parse.rs` is wrapped in `try(..)`, so failure never
commits consumed input and plain backtracking semantics is faithful. -/

def P (α : Type) : Type := Input → Option (α × Input)

/-- `p.map(f)`. -/
def pmap (p : P α) (f : α → β) (l : Input) : Option (β × Input) :=
  match p l with
  | some (a, rest) => some (f a, rest)
  | none => none

/-- `p.skip(q)`: run `p` then `q`, keep `p`'s value. -/
def pskip (p : P α) (q : P β) (l : Input) : Option (α × Input) :=
  match p l with
  | some (a, rest) =>
    match q rest with
    | some (_, rest2) => some (a, rest2)
    | none => none
  | none => none

/-- `p.with(q)`: run `p` then `q`, keep `q`'s value. -/
def pwith (p : P α) (q : P β) (l : Input) : Option (β × Input) :=
  match p l with
  | some (_, rest) => q rest
  | none => none

/-- `p.and(q)`: run `p` then `q`, keep both values. -/
def pand (p : P α) (q : P β) (l : Input) : Option ((α × β) × Input) :=
  match p l with
  | some (a, rest) =>
    match q rest with
    | some (b, rest2) => some ((a, b), rest2)
    | none => none
  | none => none

/-- `p.and_then(f)`: run `p`, then convert its value, failing the parse when
the conversion fails (this is how `str::parse` errors surface). -/
def pandThen (p : P α) (f : α → Option β) (l : Input) : Option (β × Input) :=
  match p l with
  | some (a, rest) =>
    match f a with
    | some b => some (b, rest)
    | none => none
  | none => none

/-- `choice!(try(p), q)`. -/
def porElse (p q : P α) (l : Input) : Option (α × Input) :=
  match p l with
  | some r => some r
  | none => q l

/-- `optional(try(p))`: never fails, never consumes on failure. -/
def poptional (p : P α) (l : Input) : Option (Option α × Input) :=
  match p l with
  | some (a, rest) => some (some a, rest)
  | none => some (none, l)

/-- `char(c)`. -/
def charP (c : Char) (l : Input) : Option (Unit × Input) :=
  match l with
  | [] => none
  | d :: rest => if d = c then some ((), rest) else none

/-- `string(s)`. -/
def stringP (s : List Char) (l : Input) : Option (Unit × Input) :=
  if s.isPrefixOf l then some ((), l.drop s.length) else none

/-- `take_while1(p)`: the longest nonempty prefix of characters satisfying
`p`; fails when the first character does not satisfy `p`. -/
def take_while1 (p : Char → Bool) (l : Input) : Option (List Char × Input) :=
  match l.takeWhile p with
  | [] => none
  | t => some (t, l.dropWhile p)

/-- Helper for `take_until_range` with a one-character range: the prefix up
to (not including) the first occurrence of `c`; fails when `c` is absent. -/
def takeUntilAux (c : Char) : Input → Option (List Char × Input)
  | [] => none
  | d :: rest =>
    if d = c then some ([], d :: rest)
    else
      match takeUntilAux c rest with
      | some (pre, suf) => some (d :: pre, suf)
      | none => none

/-- `take_until_range(r)` for the one-character ranges `"\n"` and `":"`
used by `src/parse.rs`; the range itself is not consumed. -/
def take_until (c : Char) (l : Input) : Option (List Char × Input) := takeUntilAux c l

/-- `spaces()`: zero or more whitespace characters (Rust
`char::is_whitespace`; `Char.isWhitespace` agrees on the ASCII whitespace
the format uses). -/
def spacesP (l : Input) : Option (Unit × Input) :=
  some ((), l.dropWhile Char.isWhitespace)

/-- `newline()`. -/
def newlineP : P Unit := charP '\n'

/-- `eof()`. -/
def eofP (l : Input) : Option (Unit × Input) :=
  match l with
  | [] => some ((), [])
  | _ :: _ => none

/-- Iteration core of `many`/`many1`: repeat `p` while it succeeds, at most
`fuel` times.  All repeated parsers in `src/parse.rs` consume at least one
character on success, so `fuel := length of the remaining input` never runs
out before `p` fails. -/
def manyAux (p : P α) : Nat → Input → List α × Input
  | 0, l => ([], l)
  | fuel + 1, l =>
    match p l with
    | some (a, rest) =>
      match manyAux p fuel rest with
      | (as, r) => (a :: as, r)
    | none => ([], l)

/-- `many1(try(p))`. -/
def many1P (p : P α) (l : Input) : Option (List α × Input) :=
  match p l with
  | some (a, rest) =>
    match manyAux p rest.length rest with
    | (as, r) => some (a :: as, r)
  | none => none

namespace Comb

/-- `"stack backtrace:"`. -/
def headerChars : List Char := "stack backtrace:".data

/-- `"<unknown>"`. -/
def unknownChars : List Char := "<unknown>".data

/-- `"<unresolved>"`. -/
def unresolvedChars : List Char := "<unresolved>".data

/-- `"<no info>"`. -/
def noInfoChars : List Char := "<no info>".data

/-- `"at"`. -/
def atChars : List Char := "at".data

/-- `frame_index` (src/parse.rs lines 27-39): one-or-more decimal digits,
`:`;  the digits are converted with `str::parse::<u64>`, whose failure
fails the parser. -/
def frame_index : P Nat :=
  pandThen (pskip (take_while1 Char.isDigit) (charP ':')) parseU64

/-- `frame_pointer` (src/parse.rs lines 41-53): `0x` then one-or-more hex
digits, converted with `u64::from_str_radix(_, 16)`. -/
def frame_pointer : P Nat :=
  pandThen (pwith (pwith (charP '0') (charP 'x')) (take_while1 isHexDigitChar))
    parseHexU64

/-- `symbol_name` (src/parse.rs lines 55-69): the literal `<unknown>` maps
to `None`, otherwise the text up to the next newline maps to `Some`. -/
def symbol_name : P (Option (List Char)) :=
  porElse (pmap (stringP unknownChars) (fun _ => none))
    (pmap (take_until '\n') some)

/-- `symbol_location` (src/parse.rs lines 71-85): path up to `:`, then `:`,
then decimal digits converted with `str::parse::<u32>` (failure of the
conversion fails this parser). -/
def symbol_location : P (List Char × Nat) :=
  pand (pskip (take_until ':') (charP ':'))
    (pandThen (take_while1 Char.isDigit) parseU32)

/-- The `parse_unresolved_symbols` closure in `frame_symbols`. -/
def parse_unresolved_symbols : P (List Symbol) :=
  pmap (pwith (pskip (charP '-') spacesP) (stringP unresolvedChars))
    (fun _ => [])

/-- The `parse_empty_symbols` closure in `frame_symbols`. -/
def parse_empty_symbols : P (List Symbol) :=
  pmap (pwith (pskip (charP '-') spacesP) (stringP noInfoChars))
    (fun _ => [])

/-- The `parse_symbol_location` closure in `frame_symbols`. -/
def parse_symbol_location : P (List Char × Nat) :=
  pwith (pskip (stringP atChars) spacesP) symbol_location

/-- The `parse_symbol` closure in `frame_symbols`. -/
def parse_symbol : P Symbol :=
  pmap
    (pand (pwith (pskip (charP '-') spacesP) symbol_name)
      (poptional (pwith spacesP parse_symbol_location)))
    (fun x =>
      { name := x.1
        filename := x.2.map Prod.fst
        lineno := x.2.map Prod.snd })

/-- The repeated element of the third `frame_symbols` alternative:
`optional(try(newline())).skip(spaces()).with(parse_symbol)`. -/
def symStep : P Symbol :=
  pwith (pskip (poptional newlineP) spacesP) parse_symbol

/-- `frame_symbols` (src/parse.rs lines 87-126): ordered choice between the
`<unresolved>` marker, the `<no info>` marker, and one-or-more symbols. -/
def frame_symbols : P (List Symbol) :=
  porElse parse_unresolved_symbols
    (porElse parse_empty_symbols (many1P symStep))

/-- `frame` (src/parse.rs lines 128-144). -/
def frameP : P ParsedFrame :=
  pmap
    (pand (pskip (pand (pskip frame_index spacesP) frame_pointer) spacesP)
      frame_symbols)
    (fun x => { symbols := x.2 })

/-- `backtrace` (src/parse.rs lines 146-159): the header literal, then
`many1(try(spaces().with(frame())))`. -/
def backtraceP : P ParsedBacktrace :=
  pmap (pwith (stringP headerChars) (many1P (pwith spacesP frameP)))
    (fun fs => { frames := fs })

/-- `parse` (src/parse.rs lines 161-168):
`backtrace().skip(spaces()).skip(eof())`; errors are modelled as `none`. -/
def parse (input : Input) : Option ParsedBacktrace :=
  match (pskip (pskip backtraceP spacesP) eofP) input with
  | some (trace, _) => some trace
  | none => none

end Comb

/-! Sanity checks against the unit tests of `src/parse.rs` and the
scenarios of the specification. -/

example : Comb.frame_index "1:".data = some (1, []) := by decide

example : Comb.frame_pointer "0x55e06f94d05d".data = some (94422433058909, []) := by decide

example : Comb.symbol_name "<unknown>".data = some (none, []) := by decide

example : Comb.symbol_name "main\n".data = some (some "main".data, ['\n']) := by decide

example :
    Comb.symbol_location "src/main.rs:6".data = some (("src/main.rs".data, 6), []) := by
  decide

example :
    Comb.parse "stack backtrace: 0: 0x0 - <no info>".data =
      some { frames := [{ symbols := [] }] } := by
  decide

example :
    Comb.parse "stack backtrace:\n  0: 0x1234 - main\n  1: 0x0 - <no info>\n".data =
      some
        { frames :=
            [{ symbols := [{ name := some "main".data, filename := none, lineno := none }] },
             { symbols := [] }] } := by
  decide

example :
    Comb.parse
        "stack backtrace: 0: 0x0 - main\nat src/main.rs:1208925819614629174706176".data =
      none := by
  decide

/-! ## The grammar-engine implementation (`src/lib.rs`)

`src/lib.rs` runs `BacktraceParser::parse(Rule::backtrace, input)` and lazily
walks the resulting token-pair tree.  The grammar file `grammar.pest` is not
among the sources; the `Pest` namespace therefore models the grammar and the
engine from the specification (§4.1, §4.2, §4.3), as a PEG recursive descent
producing the pair tree whose shape the tree-walking code of `src/lib.rs`
and `src/parser.rs` (and their unit tests) expect: a list of `frame` pairs,
each containing `frame_index`, `frame_pointer` and then either one no-symbol
marker pair or one-or-more `symbol_non_empty` pairs. -/

namespace Pest

/-- The `Rule` enum generated from the grammar, as used by `src/lib.rs` and
`src/parser.rs`. -/
inductive Rule where
  | backtrace
  | frame
  | frame_index
  | frame_pointer
  | symbol_non_empty
  | symbol_name_known
  | symbol_name_unknown
  | symbol_no_info
  | symbol_unresolved
  | symbol_location
  | symbol_location_path
  | symbol_location_lineno
deriving DecidableEq, Repr

/-- A pest token pair: a rule tag, the matched span, and the nested pairs.
Only the spans of the leaf rules (`symbol_name_known`,
`symbol_location_path`, `symbol_location_lineno`) are read by the
extraction code; spans of structural pairs are modelled as `[]`. -/
inductive Pair where
  | mk (rule : Rule) (span : List Char) (inner : List Pair)

/-- Rule tag of a pair. -/
def Pair.rule : Pair → Rule
  | .mk r _ _ => r

/-- Span of a pair. -/
def Pair.span : Pair → List Char
  | .mk _ s _ => s

/-- Nested pairs of a pair. -/
def Pair.inner : Pair → List Pair
  | .mk _ _ i => i

/-- Modelled from the spec (§4.3): the diagnostic value wraps the input
position where matching failed and a description of the expected token. -/
structure Err where
  pos : Nat
  expected : List Char
deriving DecidableEq, Repr

/-- Modelled from the spec (§4.1): token-separating whitespace is spaces
and newlines. -/
def isWsChar (c : Char) : Bool := c == ' ' || c == '\n'

/-- Skip whitespace, tracking the input position. -/
def skipWs (l : Input) (pos : Nat) : Input × Nat :=
  (l.dropWhile isWsChar, pos + (l.takeWhile isWsChar).length)

/-- Match a literal at the current position. -/
def lit (s : List Char) (l : Input) (pos : Nat) : Option (Input × Nat) :=
  if s.isPrefixOf l then some (l.drop s.length, pos + s.length) else none

/-- Modelled from the spec (§4.1 `frame_index`): one-or-more decimal digits
followed by `:`.  The span includes the `:` (as the unit tests of
`src/parser.rs` show). -/
def pFrameIndex (l : Input) (pos : Nat) : Except Err (Pair × Input × Nat) :=
  match l.takeWhile Char.isDigit with
  | [] => .error ⟨pos, "frame_index".data⟩
  | d :: ds =>
    match l.dropWhile Char.isDigit with
    | [] => .error ⟨pos + (d :: ds).length, ":".data⟩
    | c :: rest =>
      if c = ':' then
        .ok (Pair.mk .frame_index ((d :: ds) ++ [':']) [], rest,
          pos + (d :: ds).length + 1)
      else .error ⟨pos + (d :: ds).length, ":".data⟩

/-- Modelled from the spec (§4.1 `frame_pointer`): literal `0x` followed by
one-or-more hex digits. -/
def pFramePointer (l : Input) (pos : Nat) : Except Err (Pair × Input × Nat) :=
  match lit "0x".data l pos with
  | none => .error ⟨pos, "0x".data⟩
  | some (l1, p1) =>
    match l1.takeWhile isHexDigitChar with
    | [] => .error ⟨p1, "hex".data⟩
    | d :: ds =>
      .ok (Pair.mk .frame_pointer ("0x".data ++ d :: ds) [],
        l1.dropWhile isHexDigitChar, p1 + (d :: ds).length)

/-- Modelled from the spec (§4.1 `symbol_name`): the literal `<unknown>` is
tried before the fallback "any text up to the next newline". -/
def pSymbolName (l : Input) (pos : Nat) : Except Err (Pair × Input × Nat) :=
  match lit Comb.unknownChars l pos with
  | some (l1, p1) => .ok (Pair.mk .symbol_name_unknown Comb.unknownChars [], l1, p1)
  | none =>
    match l.takeWhile (fun c => c != '\n') with
    | [] => .error ⟨pos, "symbol_name".data⟩
    | d :: ds =>
      .ok (Pair.mk .symbol_name_known (d :: ds) [],
        l.dropWhile (fun c => c != '\n'), pos + (d :: ds).length)

/-- Modelled from the spec (§4.1 `symbol_location`, §4.2 item 4): when,
across optional whitespace, the literal `at` follows, match `at`,
whitespace, a path (text up to the next `:`), `:`, and one-or-more decimal
digits.  As a PEG optional, a half-matched location backtracks entirely. -/
def pTryLocation (l : Input) (pos : Nat) : Option Pair × Input × Nat :=
  let l1 := (skipWs l pos).1
  let p1 := (skipWs l pos).2
  match lit Comb.atChars l1 p1 with
  | none => (none, l, pos)
  | some (l2, p2) =>
    match l2.takeWhile isWsChar with
    | [] => (none, l, pos)
    | w :: ws =>
      let l3 := l2.dropWhile isWsChar
      let p3 := p2 + (w :: ws).length
      match l3.takeWhile (fun c => c != ':') with
      | [] => (none, l, pos)
      | d :: ds =>
        match l3.dropWhile (fun c => c != ':') with
        | [] => (none, l, pos)
        | _ :: l4 =>
          let p4 := p3 + (d :: ds).length + 1
          match l4.takeWhile Char.isDigit with
          | [] => (none, l, pos)
          | n :: ns =>
            (some (Pair.mk .symbol_location ((d :: ds) ++ ':' :: (n :: ns))
                [Pair.mk .symbol_location_path (d :: ds) [],
                 Pair.mk .symbol_location_lineno (n :: ns) []]),
             l4.dropWhile Char.isDigit, p4 + (n :: ns).length)

/-- Modelled from the spec (§4.2 item 4): a symbol body after its `-`
marker: `symbol_name`, then optionally a `symbol_location`. -/
def pSymbolBody (l : Input) (pos : Nat) : Except Err (Pair × Input × Nat) :=
  match pSymbolName l pos with
  | .error e => .error e
  | .ok (namePair, l1, p1) =>
    match pTryLocation l1 p1 with
    | (none, l2, p2) => .ok (Pair.mk .symbol_non_empty [] [namePair], l2, p2)
    | (some locPair, l2, p2) =>
      .ok (Pair.mk .symbol_non_empty [] [namePair, locPair], l2, p2)

/-- One further repetition step of `symbol+`: whitespace, `-`, optional
whitespace, a symbol body.  As a PEG repetition step it either fully
matches or backtracks. -/
def pTrySymbol (l : Input) (pos : Nat) : Option (Pair × Input × Nat) :=
  let l1 := (skipWs l pos).1
  let p1 := (skipWs l pos).2
  match lit "-".data l1 p1 with
  | none => none
  | some (l2, p2) =>
    let l3 := (skipWs l2 p2).1
    let p3 := (skipWs l2 p2).2
    match pSymbolBody l3 p3 with
    | .error _ => none
    | .ok r => some r

/-- The `symbol+` repetition after the first symbol, with fuel (each
successful step consumes at least the `-` marker, so fuel bounded by the
input length suffices). -/
def pSymbolsLoop : Nat → Input → Nat → List Pair → List Pair × Input × Nat
  | 0, l, pos, acc => (acc.reverse, l, pos)
  | fuel + 1, l, pos, acc =>
    match pTrySymbol l pos with
    | none => (acc.reverse, l, pos)
    | some (p, l1, p1) => pSymbolsLoop fuel l1 p1 (p :: acc)

/-- Modelled from the spec (§4.2 item 3): the symbol section of a frame:
`-`, whitespace, then the ordered choice `<no info>` / `<unresolved>` /
one-or-more symbols. -/
def pSymbols (l : Input) (pos : Nat) : Except Err (List Pair × Input × Nat) :=
  match lit "-".data l pos with
  | none => .error ⟨pos, "-".data⟩
  | some (l1, p1) =>
    let l2 := (skipWs l1 p1).1
    let p2 := (skipWs l1 p1).2
    match lit Comb.noInfoChars l2 p2 with
    | some (l3, p3) => .ok ([Pair.mk .symbol_no_info Comb.noInfoChars []], l3, p3)
    | none =>
      match lit Comb.unresolvedChars l2 p2 with
      | some (l3, p3) =>
        .ok ([Pair.mk .symbol_unresolved Comb.unresolvedChars []], l3, p3)
      | none =>
        match pSymbolBody l2 p2 with
        | .error e => .error e
        | .ok (sp, l3, p3) =>
          match pSymbolsLoop l3.length l3 p3 [] with
          | (sps, l4, p4) => .ok (sp :: sps, l4, p4)

/-- Modelled from the spec (§4.2 item 3): a frame is `frame_index`,
whitespace, `frame_pointer`, whitespace, then its symbol section. -/
def pFrame (l : Input) (pos : Nat) : Except Err (Pair × Input × Nat) :=
  match pFrameIndex l pos with
  | .error e => .error e
  | .ok (idxPair, l1, p1) =>
    let l2 := (skipWs l1 p1).1
    let p2 := (skipWs l1 p1).2
    match pFramePointer l2 p2 with
    | .error e => .error e
    | .ok (ptrPair, l3, p3) =>
      let l4 := (skipWs l3 p3).1
      let p4 := (skipWs l3 p3).2
      match pSymbols l4 p4 with
      | .error e => .error e
      | .ok (sps, l5, p5) =>
        .ok (Pair.mk .frame [] (idxPair :: ptrPair :: sps), l5, p5)

/-- One further repetition step of `frame+`: whitespace then a frame; as a
PEG repetition step it either fully matches or backtracks. -/
def pTryFrame (l : Input) (pos : Nat) : Option (Pair × Input × Nat) :=
  let l1 := (skipWs l pos).1
  let p1 := (skipWs l pos).2
  match pFrame l1 p1 with
  | .error _ => none
  | .ok r => some r

/-- The `frame+` repetition after the first frame, with fuel. -/
def pFramesLoop : Nat → Input → Nat → List Pair → List Pair × Input × Nat
  | 0, l, pos, acc => (acc.reverse, l, pos)
  | fuel + 1, l, pos, acc =>
    match pTryFrame l pos with
    | none => (acc.reverse, l, pos)
    | some (p, l1, p1) => pFramesLoop fuel l1 p1 (p :: acc)

/-- Modelled from the spec (§4.2, §6): the document rule.  The header
literal is matched once at position 0 (a mismatch is reported at
position 0), then whitespace, one-or-more frames, trailing whitespace,
and the end of input.  The resulting pairs are the `frame` pairs, which
is what iterating the result of `BacktraceParser::parse(Rule::backtrace, _)`
yields in `src/lib.rs` and `src/parser.rs`. -/
def tokenize (input : Input) : Except Err (List Pair) :=
  match lit Comb.headerChars input 0 with
  | none => .error ⟨0, Comb.headerChars⟩
  | some (l1, p1) =>
    let l2 := (skipWs l1 p1).1
    let p2 := (skipWs l1 p1).2
    match pFrame l2 p2 with
    | .error e => .error e
    | .ok (fp, l3, p3) =>
      match pFramesLoop l3.length l3 p3 [] with
      | (fps, l4, p4) =>
        let l5 := (skipWs l4 p4).1
        let p5 := (skipWs l4 p4).2
        match l5 with
        | [] => .ok (fp :: fps)
        | _ :: _ => .error ⟨p5, "frame".data⟩

end Pest

/-! ## The public zero-copy surface (`src/lib.rs`)

The lazy cursor types of `src/lib.rs`.  Iterators are modelled by explicit
state passing: `next` takes an iterator value and returns the item together
with the advanced iterator.  `frames()` and `symbols()` clone the stored
pair sequence (src/lib.rs lines 79-83 and 121-124).  The `debug_assert!`
and `unwrap` panic paths of the extraction code (unreachable on
grammar-produced pairs) are modelled as iterator end. -/

namespace LibRs

/-- `Backtrace` (src/lib.rs lines 62-66). -/
structure Backtrace where
  pairs : List Pest.Pair

/-- `Frames` (src/lib.rs lines 86-90). -/
structure Frames where
  inner : List Pest.Pair

/-- `Frame` (src/lib.rs lines 112-116). -/
structure Frame where
  pairs : List Pest.Pair

/-- `Symbols` (src/lib.rs lines 127-131). -/
structure Symbols where
  inner : List Pest.Pair

/-- `Backtrace::parse` (src/lib.rs lines 71-76). -/
def Backtrace.parse (input : Input) : Except Pest.Err Backtrace :=
  match Pest.tokenize input with
  | .ok pairs => .ok { pairs := pairs }
  | .error e => .error e

/-- `Backtrace::frames` (src/lib.rs lines 78-84): clones the pair cursor. -/
def Backtrace.frames (bt : Backtrace) : Frames := { inner := bt.pairs }

/-- `Frame::symbols` (src/lib.rs lines 118-125): clones the pair cursor. -/
def Frame.symbols (f : Frame) : Symbols := { inner := f.pairs }

/-- `Frames::next` (src/lib.rs lines 92-110): take the next `frame` pair,
step over its `frame_index` and `frame_pointer` children, and hand the
remaining children to the `Frame`. -/
def Frames.next : Frames → Option (Frame × Frames)
  | { inner := [] } => none
  | { inner := p :: rest } =>
    match p.inner with
    | _idx :: _ptr :: syms => some ({ pairs := syms }, { inner := rest })
    | _ => none

/-- `Symbols::next` (src/lib.rs lines 133-175): a `symbol_non_empty` pair
yields a `Symbol` whose `name` is the `symbol_name_known` span (if any) and
whose `filename`/`lineno` come from the optional `symbol_location` child;
`lineno` uses `str::parse::<u32>().ok()`.  Any other rule ends the
iterator. -/
def Symbols.next : Symbols → Option (Symbol × Symbols)
  | { inner := [] } => none
  | { inner := p :: rest } =>
    match p.rule with
    | .symbol_non_empty =>
      match p.inner with
      | namePair :: restInner =>
        let s1 : Symbol :=
          match namePair.rule with
          | .symbol_name_known =>
            { name := some namePair.span, filename := none, lineno := none }
          | _ => { name := none, filename := none, lineno := none }
        match restInner with
        | [] => some (s1, { inner := rest })
        | locPair :: _ =>
          match locPair.inner with
          | pathPair :: linenoPair :: _ =>
            some ({ s1 with
                      filename := some pathPair.span
                      lineno := parseU32 linenoPair.span },
              { inner := rest })
          | _ => none
      | [] => none
    | _ => none

/-- Collect a `Frames` iterator; `next` consumes one stored pair per step,
so fuel equal to the number of stored pairs suffices. -/
def framesToListAux : Nat → Frames → List Frame
  | 0, _ => []
  | fuel + 1, it =>
    match Frames.next it with
    | some (f, it2) => f :: framesToListAux fuel it2
    | none => []

/-- All frames yielded by an iterator. -/
def Frames.toList (it : Frames) : List Frame :=
  framesToListAux it.inner.length it

/-- Collect a `Symbols` iterator. -/
def symbolsToListAux : Nat → Symbols → List Symbol
  | 0, _ => []
  | fuel + 1, it =>
    match Symbols.next it with
    | some (s, it2) => s :: symbolsToListAux fuel it2
    | none => []

/-- All symbols yielded by an iterator. -/
def Symbols.toList (it : Symbols) : List Symbol :=
  symbolsToListAux it.inner.length it

/-- The full value content of a parsed backtrace: for each frame, its
symbol list, obtained through the public iterators. -/
def Backtrace.matrix (bt : Backtrace) : List (List Symbol) :=
  (bt.frames.toList).map (fun f => (f.symbols).toList)

/-- End-to-end: parse and collect all frames and symbols. -/
def parseMatrix (input : Input) : Except Pest.Err (List (List Symbol)) :=
  match Backtrace.parse input with
  | .ok bt => .ok bt.matrix
  | .error e => .error e

end LibRs

/-- The same value content for the combinator implementation. -/
def combMatrix (bt : ParsedBacktrace) : List (List Symbol) :=
  bt.frames.map (fun f => f.symbols)

example :
    LibRs.parseMatrix "stack backtrace: 0: 0x0 - <no info>".data = .ok [[]] := rfl

example :
    LibRs.parseMatrix "stack backtrace:\n  0: 0x1234 - main\n  1: 0x0 - <no info>\n".data =
      .ok [[{ name := some "main".data, filename := none, lineno := none }], []] := rfl

example :
    LibRs.parseMatrix
        "stack backtrace: 0: 0x0 - main\nat src/main.rs:1208925819614629174706176".data =
      .ok [[{ name := some "main".data, filename := some "src/main.rs".data,
              lineno := none }]] := rfl

example :
    LibRs.parseMatrix
        "stack backtrace:\n  0: 0x1 - main\n  at src/main.rs:6\n".data =
      .ok [[{ name := some "main".data, filename := some "src/main.rs".data,
              lineno := some 6 }]] := rfl

/-! ## Helper lemmas about the iterator model -/

namespace LibRs

/-- Advance an iterator one step (a Rust `it.next()` call, keeping the
iterator); at the end it stays put. -/
def Frames.step (it : Frames) : Frames :=
  match Frames.next it with
  | some x => x.2
  | none => it

/-- Advance an iterator `k` steps. -/
def Frames.consume : Nat → Frames → Frames
  | 0, it => it
  | k + 1, it => Frames.consume k (Frames.step it)

/-- Advance a symbol iterator one step. -/
def Symbols.step (it : Symbols) : Symbols :=
  match Symbols.next it with
  | some x => x.2
  | none => it

/-- Advance a symbol iterator `k` steps. -/
def Symbols.consume : Nat → Symbols → Symbols
  | 0, it => it
  | k + 1, it => Symbols.consume k (Symbols.step it)

theorem frames_next_inner {it : Frames} {x : Frame × Frames}
    (h : Frames.next it = some x) :
    ∃ p rest, it.inner = p :: rest ∧ x.2.inner = rest := by
  cases it with
  | mk inner =>
    cases inner with
    | nil => simp [Frames.next] at h
    | cons p rest =>
      refine ⟨p, rest, rfl, ?_⟩
      simp only [Frames.next] at h
      split at h
      · cases h; rfl
      · cases h

theorem symbols_next_inner {it : Symbols} {x : Symbol × Symbols}
    (h : Symbols.next it = some x) :
    ∃ p rest, it.inner = p :: rest ∧ x.2.inner = rest := by
  cases it with
  | mk inner =>
    cases inner with
    | nil => simp [Symbols.next] at h
    | cons p rest =>
      refine ⟨p, rest, rfl, ?_⟩
      simp only [Symbols.next] at h
      split at h
      · split at h
        · split at h
          · cases h; rfl
          · split at h
            · cases h; rfl
            · cases h
        · cases h
      · cases h

theorem framesToListAux_none {fuel : Nat} {it : Frames}
    (h : Frames.next it = none) : framesToListAux fuel it = [] := by
  cases fuel <;> simp [framesToListAux, h]

theorem symbolsToListAux_none {fuel : Nat} {it : Symbols}
    (h : Symbols.next it = none) : symbolsToListAux fuel it = [] := by
  cases fuel <;> simp [symbolsToListAux, h]

theorem frames_toList_none {it : Frames} (h : Frames.next it = none) :
    Frames.toList it = [] := framesToListAux_none h

theorem symbols_toList_none {it : Symbols} (h : Symbols.next it = none) :
    Symbols.toList it = [] := symbolsToListAux_none h

theorem frames_toList_cons {it it2 : Frames} {f : Frame}
    (h : Frames.next it = some (f, it2)) :
    Frames.toList it = f :: Frames.toList it2 := by
  obtain ⟨p, rest, hin, hin2⟩ := frames_next_inner h
  simp only at hin2
  simp only [Frames.toList, hin, List.length_cons]
  simp [framesToListAux, h, hin2]

theorem symbols_toList_cons {it it2 : Symbols} {s : Symbol}
    (h : Symbols.next it = some (s, it2)) :
    Symbols.toList it = s :: Symbols.toList it2 := by
  obtain ⟨p, rest, hin, hin2⟩ := symbols_next_inner h
  simp only at hin2
  simp only [Symbols.toList, hin, List.length_cons]
  simp [symbolsToListAux, h, hin2]

theorem frames_toList_step (it : Frames) :
    Frames.toList (Frames.step it) = (Frames.toList it).drop 1 := by
  cases h : Frames.next it with
  | none => simp [Frames.step, h, frames_toList_none h]
  | some x =>
    cases x with
    | mk f it2 => simp [Frames.step, h, frames_toList_cons h]

theorem symbols_toList_step (it : Symbols) :
    Symbols.toList (Symbols.step it) = (Symbols.toList it).drop 1 := by
  cases h : Symbols.next it with
  | none => simp [Symbols.step, h, symbols_toList_none h]
  | some x =>
    cases x with
    | mk s it2 => simp [Symbols.step, h, symbols_toList_cons h]

theorem frames_toList_consume (k : Nat) (it : Frames) :
    Frames.toList (Frames.consume k it) = (Frames.toList it).drop k := by
  induction k generalizing it with
  | zero => simp [Frames.consume]
  | succ k ih =>
    have : (Frames.toList it).drop (k + 1) = ((Frames.toList it).drop 1).drop k := by
      rw [List.drop_drop, Nat.add_comm 1 k]
    rw [Frames.consume, ih, frames_toList_step, this]

theorem symbols_toList_consume (k : Nat) (it : Symbols) :
    Symbols.toList (Symbols.consume k it) = (Symbols.toList it).drop k := by
  induction k generalizing it with
  | zero => simp [Symbols.consume]
  | succ k ih =>
    have : (Symbols.toList it).drop (k + 1) = ((Symbols.toList it).drop 1).drop k := by
      rw [List.drop_drop, Nat.add_comm 1 k]
    rw [Symbols.consume, ih, symbols_toList_step, this]

end LibRs

/-! ## Helper lemmas about the combinator model -/

theorem many1P_ne_nil {p : P α} {l r : Input} {xs : List α}
    (h : many1P p l = some (xs, r)) : xs ≠ [] := by
  simp only [many1P] at h
  split at h
  · cases h; simp
  · cases h

theorem pmap_eval {p : P α} {f : α → β} {l rest : Input} {a : α}
    (h : p l = some (a, rest)) : pmap p f l = some (f a, rest) := by
  simp only [pmap, h]

theorem pwith_eval {p : P α} {q : P β} {l rest r : Input} {a : α} {b : β}
    (h1 : p l = some (a, rest)) (h2 : q rest = some (b, r)) :
    pwith p q l = some (b, r) := by
  simp only [pwith, h1, h2]

theorem pskip_eval {p : P α} {q : P β} {l rest r : Input} {a : α} {b : β}
    (h1 : p l = some (a, rest)) (h2 : q rest = some (b, r)) :
    pskip p q l = some (a, r) := by
  simp only [pskip, h1, h2]

theorem many1P_eval {p : P α} {l rest : Input} {a : α} {as : List α} {r : Input}
    (h1 : p l = some (a, rest)) (h2 : manyAux p rest.length rest = (as, r)) :
    many1P p l = some (a :: as, r) := by
  simp only [many1P, h1, h2]

theorem pand_eval {p : P α} {q : P β} {l rest r : Input} {a : α} {b : β}
    (h1 : p l = some (a, rest)) (h2 : q rest = some (b, r)) :
    pand p q l = some ((a, b), r) := by
  simp only [pand, h1, h2]

theorem porElse_none {p q : P α} {l : Input} (h : p l = none) :
    porElse p q l = q l := by
  simp only [porElse, h]

theorem manyAux_none {p : P α} {l : Input} (h : p l = none) (fuel : Nat) :
    manyAux p fuel l = ([], l) := by
  cases fuel <;> simp [manyAux, h]

theorem parse_unresolved_nil {l r : Input} {v : List Symbol}
    (h : Comb.parse_unresolved_symbols l = some (v, r)) : v = [] := by
  simp only [Comb.parse_unresolved_symbols, pmap] at h
  split at h
  · cases h; rfl
  · cases h

theorem parse_empty_nil {l r : Input} {v : List Symbol}
    (h : Comb.parse_empty_symbols l = some (v, r)) : v = [] := by
  simp only [Comb.parse_empty_symbols, pmap] at h
  split at h
  · cases h; rfl
  · cases h

/-! ## Claims -/

/-- **C5.**  For every input on which `frame_symbols` succeeds, the produced
symbol list is empty exactly when the symbol section was the `<no info>` or
`<unresolved>` marker (i.e. exactly when one of the two marker alternatives
of the ordered choice in `frame_symbols` accepts that text); otherwise the
`many1` alternative guarantees at least one symbol. -/
theorem c5_empty_symbols_iff_marker (l rest : Input) (syms : List Symbol)
    (h : Comb.frame_symbols l = some (syms, rest)) :
    syms = [] ↔
      ((Comb.parse_unresolved_symbols l).isSome = true ∨
        (Comb.parse_empty_symbols l).isSome = true) := by
  simp only [Comb.frame_symbols, porElse] at h
  cases hu : Comb.parse_unresolved_symbols l with
  | some v =>
    rw [hu] at h
    cases h
    have := parse_unresolved_nil hu
    simp [hu, this]
  | none =>
    rw [hu] at h
    cases he : Comb.parse_empty_symbols l with
    | some v =>
      rw [he] at h
      cases h
      have := parse_empty_nil he
      simp [hu, he, this]
    | none =>
      rw [he] at h
      have := many1P_ne_nil h
      simp [hu, he, this]

/-- Witness for C5 at the input `"- <no info>"`. -/
theorem c5_witness :
    ([] : List Symbol) = [] ↔
      ((Comb.parse_unresolved_symbols "- <no info>".data).isSome = true ∨
        (Comb.parse_empty_symbols "- <no info>".data).isSome = true) :=
  c5_empty_symbols_iff_marker "- <no info>".data [] [] (by decide)


/-! ## Lemmas about the primitive parsers on constructed inputs -/

/-- Boolean core of `headFails`. -/
def headFailsB (p : Char → Bool) : Input → Bool
  | [] => true
  | c :: _ => !(p c)

/-- The first character of `l` (if any) falsifies `p`. -/
abbrev headFails (p : Char → Bool) (l : Input) : Prop := headFailsB p l = true

theorem headFails_cons {p : Char → Bool} {c : Char} {l : Input} :
    headFails p (c :: l) ↔ p c = false := by
  simp [headFails, headFailsB]

theorem takeWhile_append_all {p : Char → Bool} {t r : Input}
    (h1 : ∀ c ∈ t, p c = true) (h2 : headFails p r) :
    (t ++ r).takeWhile p = t := by
  induction t with
  | nil =>
    cases r with
    | nil => rfl
    | cons c r2 =>
      simp only [headFails, headFailsB, Bool.not_eq_true'] at h2
      simp [List.takeWhile, h2]
  | cons d t2 ih =>
    have hd : p d = true := h1 d (by simp)
    simp [List.takeWhile, hd]
    exact ih (fun c hc => h1 c (by simp [hc]))

theorem dropWhile_append_all {p : Char → Bool} {t r : Input}
    (h1 : ∀ c ∈ t, p c = true) (h2 : headFails p r) :
    (t ++ r).dropWhile p = r := by
  induction t with
  | nil =>
    cases r with
    | nil => rfl
    | cons c r2 =>
      simp only [headFails, headFailsB, Bool.not_eq_true'] at h2
      simp [List.dropWhile, h2]
  | cons d t2 ih =>
    have hd : p d = true := h1 d (by simp)
    simp [List.dropWhile, hd]
    exact ih (fun c hc => h1 c (by simp [hc]))

theorem take_while1_append {p : Char → Bool} {t r : Input}
    (h0 : t ≠ []) (h1 : ∀ c ∈ t, p c = true) (h2 : headFails p r) :
    take_while1 p (t ++ r) = some (t, r) := by
  cases t with
  | nil => exact absurd rfl h0
  | cons d t2 =>
    simp only [take_while1, takeWhile_append_all h1 h2, dropWhile_append_all h1 h2]

theorem take_while1_fail {p : Char → Bool} {l : Input} (h : headFails p l) :
    take_while1 p l = none := by
  cases l with
  | nil => rfl
  | cons c r =>
    simp only [headFails, headFailsB, Bool.not_eq_true'] at h
    simp [take_while1, List.takeWhile, h]

theorem charP_cons_self {c : Char} {r : Input} : charP c (c :: r) = some ((), r) := by
  simp [charP]

theorem charP_cons_ne {c d : Char} {r : Input} (h : d ≠ c) : charP c (d :: r) = none := by
  simp [charP, h]

theorem isPrefixOf_append_self (s r : Input) : s.isPrefixOf (s ++ r) = true := by
  induction s with
  | nil => simp [List.isPrefixOf]
  | cons c s2 ih => simp [List.isPrefixOf, ih]

theorem isPrefixOf_stop {m n : Input} {c : Char} {t : Input}
    (hc : c ∉ m) (h : m.isPrefixOf n = false) :
    m.isPrefixOf (n ++ c :: t) = false := by
  induction m generalizing n with
  | nil => simp [List.isPrefixOf] at h
  | cons d m2 ih =>
    cases n with
    | nil =>
      have hdc : ¬ d == c := by
        simp only [beq_iff_eq]
        intro he
        exact hc (by simp [he])
      simp [List.isPrefixOf, hdc]
    | cons e n2 =>
      by_cases hde : d = e
      · subst hde
        simp only [List.isPrefixOf, beq_self_eq_true, Bool.true_and] at h
        have hcm : c ∉ m2 := fun hx => hc (by simp [hx])
        simp [List.isPrefixOf, ih hcm h]
      · have : ¬ d == e := by simp [hde]
        simp [List.isPrefixOf, this]

theorem stringP_append (s r : Input) : stringP s (s ++ r) = some ((), r) := by
  simp [stringP, isPrefixOf_append_self, List.drop_left]

theorem stringP_of_not_prefix {s l : Input} (h : s.isPrefixOf l = false) :
    stringP s l = none := by
  simp [stringP, h]

theorem spacesP_append {w r : Input}
    (h1 : ∀ c ∈ w, c.isWhitespace = true) (h2 : headFails Char.isWhitespace r) :
    spacesP (w ++ r) = some ((), r) := by
  simp [spacesP, dropWhile_append_all h1 h2]

theorem spacesP_no_ws {l : Input} (h : headFails Char.isWhitespace l) :
    spacesP l = some ((), l) := by
  have := dropWhile_append_all (p := Char.isWhitespace) (t := []) (r := l)
    (by simp) h
  simpa [spacesP] using this

theorem takeUntilAux_append {c : Char} {pre suf : Input} (h : c ∉ pre) :
    takeUntilAux c (pre ++ c :: suf) = some (pre, c :: suf) := by
  induction pre with
  | nil => simp [takeUntilAux]
  | cons d p2 ih =>
    have hdc : d ≠ c := fun he => h (by simp [he])
    have : c ∉ p2 := fun hx => h (by simp [hx])
    simp [takeUntilAux, hdc, ih this]

theorem takeUntilAux_not_mem {c : Char} {l : Input} (h : c ∉ l) :
    takeUntilAux c l = none := by
  induction l with
  | nil => rfl
  | cons d l2 ih =>
    have hdc : d ≠ c := fun he => h (by simp [he])
    have : c ∉ l2 := fun hx => h (by simp [hx])
    simp [takeUntilAux, hdc, ih this]

/-! ## C6 -/

/-- **C6.**  `frame_index` on a digit sequence followed by `:` yields the
64-bit value exactly when the digits fit in 64 bits, and fails otherwise;
through the sequencing in `frame`, a failing conversion makes the whole
frame fail to parse. -/
theorem c6_frame_index_u64 (s rest rest2 : Input)
    (h0 : s ≠ []) (h1 : ∀ c ∈ s, c.isDigit = true) :
    Comb.frame_index (s ++ ':' :: rest) =
      (if digitsToNat s < 2 ^ 64 then some (digitsToNat s, rest) else none)
    ∧ (¬ digitsToNat s < 2 ^ 64 → Comb.frameP (s ++ ':' :: rest2) = none) := by
  have hidx : ∀ r : Input, Comb.frame_index (s ++ ':' :: r) =
      (if digitsToNat s < 2 ^ 64 then some (digitsToNat s, r) else none) := by
    intro r
    have htw : take_while1 Char.isDigit (s ++ ':' :: r) = some (s, ':' :: r) :=
      take_while1_append h0 h1 (headFails_cons.mpr (by decide))
    simp only [Comb.frame_index, pandThen, pskip, htw, charP_cons_self, parseU64]
    by_cases hlt : digitsToNat s < 2 ^ 64
    · rw [if_pos hlt, if_pos hlt]
    · rw [if_neg hlt, if_neg hlt]
  refine ⟨hidx rest, fun hov => ?_⟩
  have : Comb.frame_index (s ++ ':' :: rest2) = none := by
    rw [hidx rest2, if_neg hov]
  simp [Comb.frameP, pmap, pand, pskip, this]

/-- Witness for C6 at the 20-digit input `"18446744073709551616:"`
(the value `2 ^ 64`, one past `u64::MAX`). -/
theorem c6_witness :
    Comb.frame_index ("18446744073709551616".data ++ ':' :: []) =
      (if digitsToNat "18446744073709551616".data < 2 ^ 64 then
        some (digitsToNat "18446744073709551616".data, []) else none)
    ∧ (¬ digitsToNat "18446744073709551616".data < 2 ^ 64 →
        Comb.frameP ("18446744073709551616".data ++ ':' :: []) = none) :=
  c6_frame_index_u64 "18446744073709551616".data [] [] (by decide) (by decide)

/-! ## C7 -/

theorem backtraceP_frames_ne_nil {l r : Input} {bt : ParsedBacktrace}
    (h : Comb.backtraceP l = some (bt, r)) : bt.frames ≠ [] := by
  simp only [Comb.backtraceP, pmap, pwith] at h
  cases hs : stringP Comb.headerChars l with
  | none => rw [hs] at h; simp at h
  | some v =>
    obtain ⟨u, rest0⟩ := v
    rw [hs] at h
    dsimp only at h
    cases hm : many1P (pwith spacesP Comb.frameP) rest0 with
    | none => rw [hm] at h; simp at h
    | some w =>
      obtain ⟨frames1, r1⟩ := w
      rw [hm] at h
      dsimp only at h
      cases h
      exact many1P_ne_nil hm

/-- **C7.**  Every successfully parsed backtrace has at least one frame
(`many1` over frames), and the header with no following frame block is a
parse error in both implementations, never an empty backtrace. -/
theorem c7_at_least_one_frame :
    (∀ (l : Input) (bt : ParsedBacktrace), Comb.parse l = some bt → bt.frames ≠ [])
    ∧ Comb.parse Comb.headerChars = none
    ∧ LibRs.Backtrace.parse Comb.headerChars =
        .error { pos := 16, expected := "frame_index".data } := by
  refine ⟨?_, by decide, rfl⟩
  intro l bt h
  simp only [Comb.parse] at h
  cases hp : pskip (pskip Comb.backtraceP spacesP) eofP l with
  | none => rw [hp] at h; simp at h
  | some v =>
    obtain ⟨bt1, r1⟩ := v
    rw [hp] at h
    dsimp only at h
    cases h
    simp only [pskip, spacesP] at hp
    cases hb : Comb.backtraceP l with
    | none => rw [hb] at hp; simp at hp
    | some w =>
      obtain ⟨bt2, r2⟩ := w
      rw [hb] at hp
      dsimp only at hp
      cases he : eofP (r2.dropWhile Char.isWhitespace) with
      | none => rw [he] at hp; simp at hp
      | some z =>
        obtain ⟨z1, z2⟩ := z
        rw [he] at hp
        dsimp only at hp
        cases hp
        exact backtraceP_frames_ne_nil hb

/-- Witness for C7 at the single-frame scenario input. -/
theorem c7_witness :
    ({ frames := [{ symbols := [] }] } : ParsedBacktrace).frames ≠ [] :=
  c7_at_least_one_frame.1 "stack backtrace: 0: 0x0 - <no info>".data
    { frames := [{ symbols := [] }] } (by decide)

/-! ## C8 -/

/-- **C8.**  An input that does not begin with the header literal fails
with a structural-mismatch error positioned at offset 0 (the expected-token
description names the header literal). -/
theorem c8_missing_header_error_at_zero (input : Input)
    (h : Comb.headerChars.isPrefixOf input = false) :
    LibRs.Backtrace.parse input = .error { pos := 0, expected := Comb.headerChars } := by
  simp [LibRs.Backtrace.parse, Pest.tokenize, Pest.lit, h]

/-- Witness for C8 at the input `"hello"`. -/
theorem c8_witness :
    LibRs.Backtrace.parse "hello".data =
      .error { pos := 0, expected := Comb.headerChars } :=
  c8_missing_header_error_at_zero "hello".data (by decide)

/-! ## C4 -/

/-- **C4 counterexample.**  On the crate's own overflow test input
(`src/tests/parse.rs`, `line_number_overflow`), the parse succeeds and the
single produced symbol has `filename` set while `lineno` is `None` — the
two location fields are not "both set or both absent". -/
theorem c4_counterexample :
    LibRs.parseMatrix
        "stack backtrace: 0: 0x0 - main\nat src/main.rs:1208925819614629174706176".data =
      .ok [[{ name := some "main".data, filename := some "src/main.rs".data,
              lineno := none }]]
    ∧ (some "src/main.rs".data : Option (List Char)).isSome ≠
        (none : Option Nat).isSome := ⟨rfl, by decide⟩

/-- **C4 (amended).**  For every symbol produced by the symbol iterator of
`src/lib.rs`, `lineno` can only be set when `filename` is set (a location
clause supplies both), but `filename` may be set with `lineno` absent
(32-bit overflow of the line number); equivalently, a missing `filename`
forces a missing `lineno`. -/
theorem c4_amended_lineno_implies_filename (st st2 : LibRs.Symbols) (s : Symbol)
    (h : LibRs.Symbols.next st = some (s, st2)) :
    (s.lineno.isSome = true → s.filename.isSome = true)
    ∧ (s.filename = none → s.lineno = none) := by
  cases st with
  | mk inner =>
    cases inner with
    | nil => cases h
    | cons p rest =>
      simp only [LibRs.Symbols.next] at h
      split at h
      · split at h
        · split at h
          · cases h
            constructor
            · intro hs
              split at hs <;> simp_all
            · intro hs
              split at hs <;> simp_all
          · split at h
            · cases h
              constructor
              · intro; simp
              · intro hs; simp at hs
            · cases h
        · cases h
      · cases h

/-- Witness for C4 (amended) on a concrete located symbol pair. -/
theorem c4_amended_witness :
    ((some (6 : Nat)).isSome = true →
      (some "src/main.rs".data : Option (List Char)).isSome = true)
    ∧ ((some "src/main.rs".data : Option (List Char)) = none →
        (some (6 : Nat) : Option Nat) = none) :=
  c4_amended_lineno_implies_filename
    { inner := [Pest.Pair.mk .symbol_non_empty []
        [Pest.Pair.mk .symbol_name_known "main".data [],
         Pest.Pair.mk .symbol_location []
           [Pest.Pair.mk .symbol_location_path "src/main.rs".data [],
            Pest.Pair.mk .symbol_location_lineno "6".data []]]] }
    { inner := [] }
    { name := some "main".data, filename := some "src/main.rs".data, lineno := some 6 }
    rfl

/-! ## C9 -/

/-- **C9 counterexample.**  The two implementations are not behaviorally
equivalent; the combinator implementation fails whole parses that the
grammar-engine implementation accepts, on several kinds of input:
(1) the crate's own overflow test input — `src/lib.rs` succeeds with
`lineno = None`, while in `src/parse.rs` the `u32` conversion failure makes
`symbol_location` fail, the location text is left unconsumed, and `eof`
rejects it; (2) a name token at end of input — `take_until_range("\n")`
needs a newline while the grammar's name rule does not; (3) a frame index
past `u64::MAX` — `src/parse.rs` converts it with `str::parse::<u64>` and
fails, while the grammar only recognizes the digits and the tree-walking
code of `src/lib.rs`/`src/parser.rs` never converts the index. -/
theorem c9_counterexample :
    (LibRs.parseMatrix
        "stack backtrace: 0: 0x0 - main\nat src/main.rs:1208925819614629174706176".data =
      .ok [[{ name := some "main".data, filename := some "src/main.rs".data,
              lineno := none }]]
    ∧ Comb.parse
        "stack backtrace: 0: 0x0 - main\nat src/main.rs:1208925819614629174706176".data =
      none)
    ∧ (LibRs.parseMatrix "stack backtrace: 0: 0x0 - main".data =
        .ok [[{ name := some "main".data, filename := none, lineno := none }]]
      ∧ Comb.parse "stack backtrace: 0: 0x0 - main".data = none)
    ∧ (LibRs.parseMatrix "stack backtrace: 18446744073709551616: 0x0 - <no info>".data =
        .ok [[]]
      ∧ Comb.parse "stack backtrace: 18446744073709551616: 0x0 - <no info>".data =
        none) :=
  ⟨⟨rfl, by decide⟩, ⟨rfl, by decide⟩, ⟨rfl, by decide⟩⟩

/-! ## C10 -/

/-- **C10.**  `frames()` and `symbols()` clone the stored pair cursor, so
the handles are value-independent: the backtrace (resp. frame) value is
unchanged by iteration, and an iterator advanced by `k` steps yields
exactly the original sequence minus its first `k` items — in particular a
fresh `frames()`/`symbols()` call always re-yields the full sequence. -/
theorem c10_iterators_clone_and_retraverse (bt : LibRs.Backtrace)
    (f : LibRs.Frame) (k : Nat) :
    LibRs.Backtrace.frames bt = { inner := bt.pairs }
    ∧ LibRs.Frame.symbols f = { inner := f.pairs }
    ∧ LibRs.Frames.toList (LibRs.Frames.consume k (LibRs.Backtrace.frames bt))
        = (LibRs.Frames.toList (LibRs.Backtrace.frames bt)).drop k
    ∧ LibRs.Symbols.toList (LibRs.Symbols.consume k (LibRs.Frame.symbols f))
        = (LibRs.Symbols.toList (LibRs.Frame.symbols f)).drop k :=
  ⟨rfl, rfl, LibRs.frames_toList_consume k _, LibRs.symbols_toList_consume k _⟩


/-! ## A family of well-formed inputs

`renderBacktrace` produces a well-formed document from a list of frame
descriptions (each frame: a no-symbol marker or a nonempty list of symbol
name texts), covering both the single-line and the multi-line renderings of
§6.  The `Good*` predicates state exactly the conditions under which a text
is a plain name token (nonempty, single-line, not starting with whitespace
or with one of the three `<...>` marker literals). -/

theorem headFails_append {p : Char → Bool} {t r : Input}
    (h1 : t ≠ []) (h2 : headFails p t) : headFails p (t ++ r) := by
  cases t with
  | nil => exact absurd rfl h1
  | cons c t2 => exact h2

theorem stringP_cons_ne {c d : Char} {s t : Input} (h : d ≠ c) :
    stringP (c :: s) (d :: t) = none := by
  have : ¬ c == d := by
    simp only [beq_iff_eq]
    exact fun he => h he.symm
  simp [stringP, List.isPrefixOf, this]

theorem stringP_nil_r {c : Char} {s : Input} : stringP (c :: s) [] = none := rfl

/-- A plain (non-marker) symbol name token. -/
def GoodName (n : Input) : Prop :=
  n ≠ []
  ∧ '\n' ∉ n
  ∧ headFails Char.isWhitespace n
  ∧ Comb.unknownChars.isPrefixOf n = false
  ∧ Comb.unresolvedChars.isPrefixOf n = false
  ∧ Comb.noInfoChars.isPrefixOf n = false

/-- Description of one frame block. -/
inductive FrameSpec where
  | noInfo : FrameSpec
  | unresolved : FrameSpec
  | syms (names : List Input) : FrameSpec

/-- Well-formedness of a frame description. -/
def GoodSpec : FrameSpec → Prop
  | .noInfo => True
  | .unresolved => True
  | .syms names => names ≠ [] ∧ ∀ n ∈ names, GoodName n

/-- `"- NAME"`. -/
def renderSymbol (n : Input) : Input := '-' :: ' ' :: n

/-- Second and further symbol entries, each on its own line. -/
def renderSymbolsRest : List Input → Input
  | [] => []
  | n :: ns => '\n' :: (renderSymbol n ++ renderSymbolsRest ns)

/-- The symbol section of a frame. -/
def renderFrameBody : FrameSpec → Input
  | .noInfo => '-' :: ' ' :: Comb.noInfoChars
  | .unresolved => '-' :: ' ' :: Comb.unresolvedChars
  | .syms [] => []
  | .syms (n :: ns) => renderSymbol n ++ renderSymbolsRest ns

/-- `"0: 0x0 BODY"`. -/
def renderFrame (f : FrameSpec) : Input :=
  '0' :: ':' :: ' ' :: '0' :: 'x' :: '0' :: ' ' :: renderFrameBody f

/-- The frame blocks, each beginning on a new line. -/
def renderFrames : List FrameSpec → Input
  | [] => []
  | f :: fs => '\n' :: (renderFrame f ++ renderFrames fs)

/-- A whole well-formed document with one frame block per description. -/
def renderBacktrace (fs : List FrameSpec) : Input :=
  Comb.headerChars ++ renderFrames fs ++ ['\n']

/-- The symbol value the parse is expected to produce for a name text. -/
def expectedSymbol (n : Input) : Symbol :=
  { name := some n, filename := none, lineno := none }

/-- The frame value the parse is expected to produce. -/
def expectedFrame : FrameSpec → ParsedFrame
  | .noInfo => { symbols := [] }
  | .unresolved => { symbols := [] }
  | .syms names => { symbols := names.map expectedSymbol }

/-- What may follow the newline that terminates a frame: the end of input
or the next frame block (whose index digit is `0` in this family). -/
def Tail0 (t : Input) : Prop := t = [] ∨ ∃ t2, t = '0' :: t2

/-- What may follow the newline that terminates a symbol entry: the end of
input, the next frame block, or the next symbol entry. -/
def SymTail (t : Input) : Prop :=
  t = [] ∨ (∃ t2, t = '0' :: t2) ∨ (∃ t2, t = '-' :: t2)

theorem Tail0.symTail {t : Input} (h : Tail0 t) : SymTail t := by
  rcases h with h | h
  · exact Or.inl h
  · exact Or.inr (Or.inl h)

theorem spacesP_newline {t : Input} (ht : SymTail t) :
    spacesP ('\n' :: t) = some ((), t) := by
  refine spacesP_append (w := ['\n']) (by decide) ?_
  rcases ht with rfl | ⟨t2, rfl⟩ | ⟨t2, rfl⟩
  · trivial
  · exact headFails_cons.mpr (by decide)
  · exact headFails_cons.mpr (by decide)

theorem parse_symbol_core {n rest : Input} (hn : GoodName n) (hrest : SymTail rest) :
    Comb.parse_symbol ('-' :: ' ' :: (n ++ '\n' :: rest)) =
      some (expectedSymbol n, '\n' :: rest) := by
  obtain ⟨h1, h2, h3, h4, h5, h6⟩ := hn
  have hsp : spacesP (' ' :: (n ++ '\n' :: rest)) = some ((), n ++ '\n' :: rest) :=
    spacesP_append (w := [' ']) (by decide) (headFails_append h1 h3)
  have hu : Comb.unknownChars.isPrefixOf (n ++ '\n' :: rest) = false :=
    isPrefixOf_stop (by decide) h4
  have hname : Comb.symbol_name (n ++ '\n' :: rest) = some (some n, '\n' :: rest) := by
    simp only [Comb.symbol_name, porElse, pmap, stringP_of_not_prefix hu, take_until,
      takeUntilAux_append h2]
  have hspr : spacesP ('\n' :: rest) = some ((), rest) := spacesP_newline hrest
  have hat : stringP Comb.atChars rest = none := by
    rcases hrest with rfl | ⟨t2, rfl⟩ | ⟨t2, rfl⟩
    · rfl
    · exact stringP_cons_ne (by decide)
    · exact stringP_cons_ne (by decide)
  have hloc : poptional (pwith spacesP Comb.parse_symbol_location) ('\n' :: rest) =
      some (none, '\n' :: rest) := by
    simp only [poptional, pwith, Comb.parse_symbol_location, pskip, hspr, hat]
  simp only [Comb.parse_symbol, pmap, pand, pwith, pskip, charP_cons_self, hsp, hname,
    hloc, expectedSymbol, Option.map]

theorem symStep_first {n rest : Input} (hn : GoodName n) (hrest : SymTail rest) :
    Comb.symStep (renderSymbol n ++ '\n' :: rest) = some (expectedSymbol n, '\n' :: rest) := by
  have heq : renderSymbol n ++ '\n' :: rest = '-' :: ' ' :: (n ++ '\n' :: rest) := by
    simp [renderSymbol]
  rw [heq]
  have hnl : newlineP ('-' :: ' ' :: (n ++ '\n' :: rest)) = none :=
    charP_cons_ne (by decide)
  have hsp : spacesP ('-' :: ' ' :: (n ++ '\n' :: rest)) =
      some ((), '-' :: ' ' :: (n ++ '\n' :: rest)) :=
    spacesP_no_ws (headFails_cons.mpr (by decide))
  simp only [Comb.symStep, pwith, pskip, poptional, hnl, hsp]
  exact parse_symbol_core hn hrest

theorem symStep_next {n rest : Input} (hn : GoodName n) (hrest : SymTail rest) :
    Comb.symStep ('\n' :: (renderSymbol n ++ '\n' :: rest)) =
      some (expectedSymbol n, '\n' :: rest) := by
  have heq : renderSymbol n ++ '\n' :: rest = '-' :: ' ' :: (n ++ '\n' :: rest) := by
    simp [renderSymbol]
  have hnl : newlineP ('\n' :: (renderSymbol n ++ '\n' :: rest)) =
      some ((), renderSymbol n ++ '\n' :: rest) := charP_cons_self
  have hsp : spacesP (renderSymbol n ++ '\n' :: rest) =
      some ((), renderSymbol n ++ '\n' :: rest) := by
    rw [heq]
    exact spacesP_no_ws (headFails_cons.mpr (by decide))
  simp only [Comb.symStep, pwith, pskip, poptional, hnl, hsp]
  rw [heq]
  exact parse_symbol_core hn hrest

theorem symStep_stop {t : Input} (ht : Tail0 t) : Comb.symStep ('\n' :: t) = none := by
  have hnl : newlineP ('\n' :: t) = some ((), t) := charP_cons_self
  have hsp : spacesP t = some ((), t) := by
    rcases ht with rfl | ⟨t2, rfl⟩
    · rfl
    · exact spacesP_no_ws (headFails_cons.mpr (by decide))
  have hdash : charP '-' t = none := by
    rcases ht with rfl | ⟨t2, rfl⟩
    · rfl
    · exact charP_cons_ne (by decide)
  simp only [Comb.symStep, pwith, pskip, poptional, hnl, hsp, Comb.parse_symbol,
    pmap, pand, hdash]


theorem renderSymbolsRest_shape (ns : List Input) (t : Input) (ht : Tail0 t) :
    ∃ rest, renderSymbolsRest ns ++ '\n' :: t = '\n' :: rest ∧ SymTail rest := by
  cases ns with
  | nil => exact ⟨t, by simp [renderSymbolsRest], ht.symTail⟩
  | cons m ns3 =>
    refine ⟨renderSymbol m ++ renderSymbolsRest ns3 ++ '\n' :: t, ?_, ?_⟩
    · simp [renderSymbolsRest]
    · exact Or.inr (Or.inr ⟨' ' :: m ++ renderSymbolsRest ns3 ++ '\n' :: t,
        by simp [renderSymbol]⟩)

theorem renderSymbolsRest_length (ns : List Input) :
    ns.length ≤ (renderSymbolsRest ns).length := by
  induction ns with
  | nil => simp [renderSymbolsRest]
  | cons m ns3 ih => simp [renderSymbolsRest, renderSymbol]; omega

theorem manyAux_symbols (ns : List Input) (fuel : Nat) (t : Input)
    (hns : ∀ n ∈ ns, GoodName n) (ht : Tail0 t) (hfuel : ns.length ≤ fuel) :
    manyAux Comb.symStep fuel (renderSymbolsRest ns ++ '\n' :: t) =
      (ns.map expectedSymbol, '\n' :: t) := by
  induction ns generalizing fuel with
  | nil =>
    have hstop := symStep_stop ht
    cases fuel with
    | zero => simp [renderSymbolsRest, manyAux]
    | succ f => simp [renderSymbolsRest, manyAux, hstop]
  | cons n ns2 ih =>
    cases fuel with
    | zero => simp at hfuel
    | succ f =>
      obtain ⟨rest, hsh, hst⟩ := renderSymbolsRest_shape ns2 t ht
      have hGn : GoodName n := hns n (by simp)
      have hinput : renderSymbolsRest (n :: ns2) ++ '\n' :: t
          = '\n' :: (renderSymbol n ++ '\n' :: rest) := by
        simp only [renderSymbolsRest, List.cons_append, List.append_assoc, hsh]
      rw [hinput]
      simp only [manyAux, symStep_next hGn hst]
      rw [← hsh, ih f (fun x hx => hns x (List.mem_cons_of_mem n hx))
        (by simp at hfuel; omega)]
      simp

theorem frame_symbols_noInfo {t : Input} :
    Comb.frame_symbols (renderFrameBody .noInfo ++ '\n' :: t) = some ([], '\n' :: t) := by
  have heq : renderFrameBody FrameSpec.noInfo ++ '\n' :: t
      = '-' :: ' ' :: (Comb.noInfoChars ++ '\n' :: t) := by
    simp [renderFrameBody]
  have hsp : spacesP (' ' :: (Comb.noInfoChars ++ '\n' :: t))
      = some ((), Comb.noInfoChars ++ '\n' :: t) :=
    spacesP_append (w := [' ']) (by decide)
      (headFails_append (t := Comb.noInfoChars) (by decide) (by decide))
  have hunres : stringP Comb.unresolvedChars (Comb.noInfoChars ++ '\n' :: t) = none :=
    stringP_of_not_prefix (isPrefixOf_stop (by decide) (by decide))
  have hnoinfo : stringP Comb.noInfoChars (Comb.noInfoChars ++ '\n' :: t)
      = some ((), '\n' :: t) := stringP_append _ _
  rw [heq]
  simp only [Comb.frame_symbols, porElse, Comb.parse_unresolved_symbols,
    Comb.parse_empty_symbols, pmap, pwith, pskip, charP_cons_self, hsp, hunres, hnoinfo]

theorem frame_symbols_unresolved {t : Input} :
    Comb.frame_symbols (renderFrameBody .unresolved ++ '\n' :: t) = some ([], '\n' :: t) := by
  have heq : renderFrameBody FrameSpec.unresolved ++ '\n' :: t
      = '-' :: ' ' :: (Comb.unresolvedChars ++ '\n' :: t) := by
    simp [renderFrameBody]
  have hsp : spacesP (' ' :: (Comb.unresolvedChars ++ '\n' :: t))
      = some ((), Comb.unresolvedChars ++ '\n' :: t) :=
    spacesP_append (w := [' ']) (by decide)
      (headFails_append (t := Comb.unresolvedChars) (by decide) (by decide))
  have hunres : stringP Comb.unresolvedChars (Comb.unresolvedChars ++ '\n' :: t)
      = some ((), '\n' :: t) := stringP_append _ _
  rw [heq]
  simp only [Comb.frame_symbols, porElse, Comb.parse_unresolved_symbols, pmap, pwith,
    pskip, charP_cons_self, hsp, hunres]

theorem frame_symbols_syms {n : Input} {ns : List Input} {t : Input}
    (hn : GoodName n) (hns : ∀ m ∈ ns, GoodName m) (ht : Tail0 t) :
    Comb.frame_symbols (renderFrameBody (.syms (n :: ns)) ++ '\n' :: t) =
      some ((n :: ns).map expectedSymbol, '\n' :: t) := by
  obtain ⟨rest, hsh, hst⟩ := renderSymbolsRest_shape ns t ht
  have hinput : renderFrameBody (.syms (n :: ns)) ++ '\n' :: t
      = renderSymbol n ++ '\n' :: rest := by
    simp only [renderFrameBody, List.append_assoc, hsh]
  obtain ⟨h1, h2, h3, h4, h5, h6⟩ := hn
  have hspn : spacesP (' ' :: (n ++ '\n' :: rest)) = some ((), n ++ '\n' :: rest) :=
    spacesP_append (w := [' ']) (by decide) (headFails_append h1 h3)
  have hun : stringP Comb.unresolvedChars (n ++ '\n' :: rest) = none :=
    stringP_of_not_prefix (isPrefixOf_stop (by decide) h5)
  have hni : stringP Comb.noInfoChars (n ++ '\n' :: rest) = none :=
    stringP_of_not_prefix (isPrefixOf_stop (by decide) h6)
  have hstep : Comb.symStep (renderSymbol n ++ '\n' :: rest)
      = some (expectedSymbol n, '\n' :: rest) :=
    symStep_first ⟨h1, h2, h3, h4, h5, h6⟩ hst
  have hloop : manyAux Comb.symStep ('\n' :: rest).length ('\n' :: rest)
      = (ns.map expectedSymbol, '\n' :: t) := by
    rw [← hsh]
    refine manyAux_symbols ns _ t hns ht ?_
    calc ns.length ≤ (renderSymbolsRest ns).length := renderSymbolsRest_length ns
    _ ≤ (renderSymbolsRest ns ++ '\n' :: t).length := by simp
  have heq2 : renderSymbol n ++ '\n' :: rest = '-' :: ' ' :: (n ++ '\n' :: rest) := by
    simp [renderSymbol]
  rw [hinput, heq2]
  rw [heq2] at hstep
  simp only [Comb.frame_symbols, porElse, Comb.parse_unresolved_symbols,
    Comb.parse_empty_symbols, pmap, pwith, pskip, charP_cons_self, hspn, hun, hni,
    many1P, hstep, hloop]
  simp

theorem frameP_render {f : FrameSpec} {t : Input} (hf : GoodSpec f) (ht : Tail0 t) :
    Comb.frameP (renderFrame f ++ '\n' :: t) = some (expectedFrame f, '\n' :: t) := by
  have heq : renderFrame f ++ '\n' :: t
      = '0' :: ':' :: ' ' :: '0' :: 'x' :: '0' :: ' ' :: (renderFrameBody f ++ '\n' :: t) := by
    simp [renderFrame]
  have hidx : ∀ X : Input, Comb.frame_index ('0' :: ':' :: X) = some (0, X) := by
    intro X
    have htw : take_while1 Char.isDigit ('0' :: ':' :: X) = some (['0'], ':' :: X) :=
      take_while1_append (t := ['0']) (by decide) (by decide)
        (headFails_cons.mpr (by decide))
    have hp : parseU64 ['0'] = some 0 := by decide
    simp only [Comb.frame_index, pandThen, pskip, htw, charP_cons_self, hp]
  have hptr : ∀ X : Input, Comb.frame_pointer ('0' :: 'x' :: '0' :: ' ' :: X)
      = some (0, ' ' :: X) := by
    intro X
    have htw : take_while1 isHexDigitChar ('0' :: ' ' :: X) = some (['0'], ' ' :: X) :=
      take_while1_append (t := ['0']) (by decide) (by decide)
        (headFails_cons.mpr (by decide))
    have hp : parseHexU64 ['0'] = some 0 := by decide
    simp only [Comb.frame_pointer, pandThen, pwith, charP_cons_self, htw, hp]
  have hsp1 : ∀ X : Input, spacesP (' ' :: '0' :: 'x' :: '0' :: ' ' :: X)
      = some ((), '0' :: 'x' :: '0' :: ' ' :: X) :=
    fun X => spacesP_append (w := [' ']) (by decide) (headFails_cons.mpr (by decide))
  have hbody : headFails Char.isWhitespace (renderFrameBody f ++ '\n' :: t) := by
    cases f with
    | noInfo => exact headFails_cons.mpr (by decide)
    | unresolved => exact headFails_cons.mpr (by decide)
    | syms names =>
      obtain ⟨hne, hgood⟩ := hf
      cases names with
      | nil => exact absurd rfl hne
      | cons n ns => exact headFails_cons.mpr (by decide)
  have hsp2 : spacesP (' ' :: (renderFrameBody f ++ '\n' :: t))
      = some ((), renderFrameBody f ++ '\n' :: t) :=
    spacesP_append (w := [' ']) (by decide) hbody
  have hsyms : Comb.frame_symbols (renderFrameBody f ++ '\n' :: t)
      = some ((expectedFrame f).symbols, '\n' :: t) := by
    cases f with
    | noInfo => exact frame_symbols_noInfo
    | unresolved => exact frame_symbols_unresolved
    | syms names =>
      obtain ⟨hne, hgood⟩ := hf
      cases names with
      | nil => exact absurd rfl hne
      | cons n ns =>
        exact frame_symbols_syms (hgood n (by simp))
          (fun m hm => hgood m (by simp [hm])) ht
  rw [heq]
  simp only [Comb.frameP, pmap, pand, pskip, hidx, hsp1, hptr, hsp2, hsyms]

theorem frameStep_render {f : FrameSpec} {t : Input} (hf : GoodSpec f) (ht : Tail0 t) :
    pwith spacesP Comb.frameP ('\n' :: (renderFrame f ++ '\n' :: t))
      = some (expectedFrame f, '\n' :: t) := by
  have hsp : spacesP ('\n' :: (renderFrame f ++ '\n' :: t))
      = some ((), renderFrame f ++ '\n' :: t) := by
    refine spacesP_append (w := ['\n']) (by decide) ?_
    exact headFails_cons.mpr (by decide)
  simp only [pwith, hsp, frameP_render hf ht]

theorem renderFrames_shape (fs : List FrameSpec) :
    ∃ t, renderFrames fs ++ ['\n'] = '\n' :: t ∧ Tail0 t := by
  cases fs with
  | nil => exact ⟨[], by simp [renderFrames], Or.inl rfl⟩
  | cons f fs2 =>
    refine ⟨renderFrame f ++ renderFrames fs2 ++ ['\n'], ?_, ?_⟩
    · simp [renderFrames]
    · exact Or.inr ⟨':' :: ' ' :: '0' :: 'x' :: '0' :: ' ' :: renderFrameBody f
        ++ renderFrames fs2 ++ ['\n'], by simp [renderFrame]⟩

theorem renderFrames_length (fs : List FrameSpec) :
    fs.length ≤ (renderFrames fs).length := by
  induction fs with
  | nil => simp [renderFrames]
  | cons g gs ihg => simp [renderFrames]; omega

theorem manyAux_frames (fs : List FrameSpec) (fuel : Nat)
    (hfs : ∀ f ∈ fs, GoodSpec f) (hfuel : fs.length ≤ fuel) :
    manyAux (pwith spacesP Comb.frameP) fuel (renderFrames fs ++ ['\n'])
      = (fs.map expectedFrame, ['\n']) := by
  induction fs generalizing fuel with
  | nil =>
    have hstop : pwith spacesP Comb.frameP ['\n'] = none := by decide
    cases fuel with
    | zero => simp [renderFrames, manyAux]
    | succ f2 => simp [renderFrames, manyAux, hstop]
  | cons f fs2 ih =>
    cases fuel with
    | zero => simp at hfuel
    | succ fl =>
      obtain ⟨t, hsh, ht⟩ := renderFrames_shape fs2
      have hinput : renderFrames (f :: fs2) ++ ['\n']
          = '\n' :: (renderFrame f ++ '\n' :: t) := by
        simp only [renderFrames, List.cons_append, List.append_assoc, hsh]
      rw [hinput]
      simp only [manyAux, frameStep_render (hfs f (by simp)) ht]
      rw [← hsh, ih fl (fun x hx => hfs x (List.mem_cons_of_mem f hx))
        (by simp at hfuel; omega)]
      simp

/-- Shared helper: parsing a rendered well-formed document yields exactly
the frame image of the block list. -/
theorem combRenderParse (specs : List FrameSpec)
    (h0 : specs ≠ []) (h1 : ∀ f ∈ specs, GoodSpec f) :
    Comb.parse (renderBacktrace specs) = some { frames := specs.map expectedFrame } := by
  cases specs with
  | nil => exact absurd rfl h0
  | cons f fs =>
    obtain ⟨t, hsh, ht⟩ := renderFrames_shape fs
    have hb : renderBacktrace (f :: fs)
        = Comb.headerChars ++ ('\n' :: (renderFrame f ++ '\n' :: t)) := by
      simp only [renderBacktrace, renderFrames, List.cons_append, List.append_assoc, hsh]
    have hhdr : stringP Comb.headerChars
        (Comb.headerChars ++ ('\n' :: (renderFrame f ++ '\n' :: t)))
        = some ((), '\n' :: (renderFrame f ++ '\n' :: t)) := stringP_append _ _
    have hstep := frameStep_render (h1 f (by simp)) ht
    have hloop : manyAux (pwith spacesP Comb.frameP) ('\n' :: t).length ('\n' :: t)
        = (fs.map expectedFrame, ['\n']) := by
      rw [← hsh]
      refine manyAux_frames fs _ (fun x hx => h1 x (List.mem_cons_of_mem f hx)) ?_
      calc fs.length ≤ (renderFrames fs).length := renderFrames_length fs
      _ ≤ (renderFrames fs ++ ['\n']).length := by simp
    have hspend : spacesP ['\n'] = some ((), []) := by decide
    have hbt : Comb.backtraceP (Comb.headerChars ++ ('\n' :: (renderFrame f ++ '\n' :: t)))
        = some ({ frames := expectedFrame f :: fs.map expectedFrame }, ['\n']) := by
      have hm : many1P (pwith spacesP Comb.frameP) ('\n' :: (renderFrame f ++ '\n' :: t))
          = some (expectedFrame f :: fs.map expectedFrame, ['\n']) :=
        many1P_eval hstep hloop
      simp only [Comb.backtraceP]
      exact pmap_eval (pwith_eval hhdr hm)
    have hrun : pskip (pskip Comb.backtraceP spacesP) eofP
        (Comb.headerChars ++ ('\n' :: (renderFrame f ++ '\n' :: t)))
        = some ({ frames := expectedFrame f :: fs.map expectedFrame }, []) :=
      pskip_eval (pskip_eval hbt hspend) rfl
    rw [hb]
    simp only [Comb.parse, hrun, List.map]

/-- **C2.**  For every well-formed document of this family with `N` frame
blocks, `parse` succeeds and returns exactly the `N` frames, in source
order (the resulting frame list is the image of the block list, so its
length is `N` and the i-th frame comes from the i-th block). -/
theorem c2_n_frames_in_order (specs : List FrameSpec)
    (h0 : specs ≠ []) (h1 : ∀ f ∈ specs, GoodSpec f) :
    Comb.parse (renderBacktrace specs) = some { frames := specs.map expectedFrame } :=
  combRenderParse specs h0 h1

/-- Witness for C2 at a three-block document (one symbol frame, one
`<no info>` frame, one `<unresolved>` frame). -/
theorem c2_witness :
    Comb.parse (renderBacktrace
        [.syms ["main".data], .noInfo, .unresolved]) =
      some { frames := [.syms ["main".data], .noInfo,
        .unresolved].map expectedFrame } :=
  c2_n_frames_in_order [.syms ["main".data], .noInfo, .unresolved]
    (by simp) (by
      intro f hf
      simp only [List.mem_cons, List.not_mem_nil, or_false] at hf
      rcases hf with rfl | rfl | rfl
      · refine ⟨by simp, ?_⟩
        intro n hn
        simp only [List.mem_singleton] at hn
        subst hn
        exact ⟨by decide, by decide, by decide, by decide, by decide, by decide⟩
      · trivial
      · trivial)


/-- **C3.**  The name token of a parsed symbol: the literal `<unknown>`
yields `name = None`; any other producible name token (the text up to the
next newline — by ordered choice a producible token other than `<unknown>`
cannot begin with that literal) yields `name = Some` of exactly that text.
Stated for `symbol_name` itself and end-to-end through `parse`. -/
theorem c3_symbol_name_token :
    (∀ (n t : Input), '\n' ∉ n → Comb.unknownChars.isPrefixOf n = false →
      Comb.symbol_name (n ++ '\n' :: t) = some (some n, '\n' :: t))
    ∧ (∀ r : Input, Comb.symbol_name (Comb.unknownChars ++ r) = some (none, r))
    ∧ (∀ n : Input, GoodName n →
        Comb.parse (renderBacktrace [.syms [n]]) =
          some { frames := [{ symbols := [expectedSymbol n] }] })
    ∧ Comb.parse "stack backtrace:\n0: 0x0 - <unknown>\n".data =
        some { frames :=
          [{ symbols := [{ name := none, filename := none, lineno := none }] }] } := by
  refine ⟨?_, ?_, ?_, by decide⟩
  · intro n t h1 h2
    have hu : stringP Comb.unknownChars (n ++ '\n' :: t) = none :=
      stringP_of_not_prefix (isPrefixOf_stop (by decide) h2)
    simp only [Comb.symbol_name, porElse, pmap, hu, take_until, takeUntilAux_append h1]
  · intro r
    simp only [Comb.symbol_name, porElse, pmap, stringP_append]
  · intro n hn
    have := combRenderParse [.syms [n]] (by simp) (by
      intro f hf
      simp only [List.mem_cons, List.not_mem_nil, or_false] at hf
      subst hf
      refine ⟨by simp, ?_⟩
      intro m hm
      simp only [List.mem_singleton] at hm
      subst hm
      exact hn)
    simpa [expectedFrame] using this

/-- Witness for C3 at the tokens `"main"` and `"my fn"`. -/
theorem c3_witness :
    Comb.symbol_name ("main".data ++ '\n' :: []) = some (some "main".data, '\n' :: [])
    ∧ Comb.parse (renderBacktrace [.syms ["my fn".data]]) =
        some { frames := [{ symbols := [expectedSymbol "my fn".data] }] } :=
  ⟨c3_symbol_name_token.1 "main".data [] (by decide) (by decide),
   c3_symbol_name_token.2.2.1 "my fn".data
     ⟨by decide, by decide, by decide, by decide, by decide, by decide⟩⟩


/-! ## C1: the location clause, end to end through the public surface -/

theorem takeWhile_all {p : Char → Bool} {l : Input} (h : ∀ c ∈ l, p c = true) :
    l.takeWhile p = l := by
  induction l with
  | nil => rfl
  | cons d l2 ih =>
    have hd : p d = true := h d (by simp)
    simp [List.takeWhile, hd, ih (fun c hc => h c (by simp [hc]))]

theorem dropWhile_all {p : Char → Bool} {l : Input} (h : ∀ c ∈ l, p c = true) :
    l.dropWhile p = [] := by
  induction l with
  | nil => rfl
  | cons d l2 ih =>
    have hd : p d = true := h d (by simp)
    simp [List.dropWhile, hd, ih (fun c hc => h c (by simp [hc]))]

/-- Shared helper: the pest-side parse of a document with one location
clause `at PATH:LINE`. -/
theorem pestLocationParse (path line : Input)
    (hp0 : path ≠ []) (hp1 : ':' ∉ path) (hp2 : headFails Pest.isWsChar path)
    (hl0 : line ≠ []) (hl1 : ∀ c ∈ line, c.isDigit = true) :
    LibRs.parseMatrix ("stack backtrace: 0: 0x0 - main\nat ".data ++ path ++ ':' :: line) =
      .ok [[{ name := some "main".data, filename := some path,
              lineno := if digitsToNat line < 2 ^ 32 then some (digitsToNat line)
                else none }]] := by
  obtain ⟨p0, path2, rfl⟩ : ∃ c cs, path = c :: cs := by
    cases path with
    | nil => exact absurd rfl hp0
    | cons a b => exact ⟨a, b, rfl⟩
  obtain ⟨l0, line2, rfl⟩ : ∃ c cs, line = c :: cs := by
    cases line with
    | nil => exact absurd rfl hl0
    | cons a b => exact ⟨a, b, rfl⟩
  set X : Input := (p0 :: path2) ++ ':' :: l0 :: line2 with hXdef
  -- the location sub-parse
  have hpne : ∀ c ∈ p0 :: path2, (c != ':') = true := by
    intro c hc
    simp only [bne_iff_ne, ne_eq]
    exact fun he => hp1 (he ▸ hc)
  have hwsX : headFails Pest.isWsChar X := by
    rw [hXdef]
    exact headFails_append (by simp) hp2
  have htwWs : List.takeWhile Pest.isWsChar (' ' :: X) = [' '] :=
    takeWhile_append_all (t := [' ']) (by decide) hwsX
  have hdwWs : List.dropWhile Pest.isWsChar (' ' :: X) = X :=
    dropWhile_append_all (t := [' ']) (by decide) hwsX
  have htwPath : List.takeWhile (fun c => c != ':') X = p0 :: path2 :=
    takeWhile_append_all hpne (headFails_cons.mpr (by decide))
  have hdwPath : List.dropWhile (fun c => c != ':') X = ':' :: l0 :: line2 :=
    dropWhile_append_all hpne (headFails_cons.mpr (by decide))
  have htwLine : List.takeWhile Char.isDigit (l0 :: line2) = l0 :: line2 :=
    takeWhile_all hl1
  have hdwLine : List.dropWhile Char.isDigit (l0 :: line2) = [] :=
    dropWhile_all hl1
  have hloc : ∀ pos : Nat,
      Pest.pTryLocation ('\n' :: ("at ".data ++ X)) pos =
        (some (Pest.Pair.mk .symbol_location ((p0 :: path2) ++ ':' :: l0 :: line2)
            [Pest.Pair.mk .symbol_location_path (p0 :: path2) [],
             Pest.Pair.mk .symbol_location_lineno (l0 :: line2) []]),
          [], pos + 1 + 2 + 1 + (p0 :: path2).length + 1 + (l0 :: line2).length) := by
    intro pos
    have hws1 : Pest.skipWs ('\n' :: ("at ".data ++ X)) pos = ("at ".data ++ X, pos + 1) := rfl
    have hlit : Pest.lit Comb.atChars ("at ".data ++ X) (pos + 1) = some (' ' :: X, pos + 1 + 2) := rfl
    simp only [Pest.pTryLocation, hws1, hlit, htwWs, hdwWs, htwPath, hdwPath, htwLine,
      hdwLine]
    rfl
  -- the symbol name
  have hname : ∀ (pos : Nat),
      Pest.pSymbolName ("main\nat ".data ++ X) pos =
        .ok (Pest.Pair.mk .symbol_name_known "main".data [],
          '\n' :: ("at ".data ++ X), pos + 4) := fun pos => rfl
  have hbody : ∀ pos : Nat, ∃ q,
      Pest.pSymbolBody ("main\nat ".data ++ X) pos =
        .ok (Pest.Pair.mk .symbol_non_empty []
          [Pest.Pair.mk .symbol_name_known "main".data [],
           Pest.Pair.mk .symbol_location ((p0 :: path2) ++ ':' :: l0 :: line2)
            [Pest.Pair.mk .symbol_location_path (p0 :: path2) [],
             Pest.Pair.mk .symbol_location_lineno (l0 :: line2) []]],
          [], q) := by
    intro pos
    refine ⟨pos + 4 + 1 + 2 + 1 + (p0 :: path2).length + 1 + (l0 :: line2).length, ?_⟩
    simp only [Pest.pSymbolBody, hname, hloc]
  have hsyms : ∀ pos : Nat, ∃ q,
      Pest.pSymbols ("- main\nat ".data ++ X) pos =
        .ok ([Pest.Pair.mk .symbol_non_empty []
          [Pest.Pair.mk .symbol_name_known "main".data [],
           Pest.Pair.mk .symbol_location ((p0 :: path2) ++ ':' :: l0 :: line2)
            [Pest.Pair.mk .symbol_location_path (p0 :: path2) [],
             Pest.Pair.mk .symbol_location_lineno (l0 :: line2) []]]],
          [], q) := by
    intro pos
    obtain ⟨q, hb⟩ := hbody (pos + 1 + 1)
    refine ⟨q, ?_⟩
    have hlitDash : Pest.lit "-".data ("- main\nat ".data ++ X) pos =
        some (' ' :: ("main\nat ".data ++ X), pos + 1) := rfl
    have hws : Pest.skipWs (' ' :: ("main\nat ".data ++ X)) (pos + 1) =
        ("main\nat ".data ++ X, pos + 1 + 1) := rfl
    have hNoInfo : Pest.lit Comb.noInfoChars ("main\nat ".data ++ X) (pos + 1 + 1) = none := rfl
    have hUnres : Pest.lit Comb.unresolvedChars ("main\nat ".data ++ X) (pos + 1 + 1) = none := rfl
    have hLoop : Pest.pSymbolsLoop (List.length ([] : Input)) [] q [] = ([], [], q) := rfl
    simp only [Pest.pSymbols, hlitDash, hws, hNoInfo, hUnres, hb, hLoop]
  have hframe : ∀ pos : Nat, ∃ q,
      Pest.pFrame ("0: 0x0 - main\nat ".data ++ X) pos =
        .ok (Pest.Pair.mk .frame []
          [Pest.Pair.mk .frame_index ['0', ':'] [],
           Pest.Pair.mk .frame_pointer ['0', 'x', '0'] [],
           Pest.Pair.mk .symbol_non_empty []
            [Pest.Pair.mk .symbol_name_known "main".data [],
             Pest.Pair.mk .symbol_location ((p0 :: path2) ++ ':' :: l0 :: line2)
              [Pest.Pair.mk .symbol_location_path (p0 :: path2) [],
               Pest.Pair.mk .symbol_location_lineno (l0 :: line2) []]]],
          [], q) := by
    intro pos
    obtain ⟨q, hs⟩ := hsyms (pos + 2 + 1 + 3 + 1)
    refine ⟨q, ?_⟩
    have hIdx : Pest.pFrameIndex ("0: 0x0 - main\nat ".data ++ X) pos =
        .ok (Pest.Pair.mk .frame_index ['0', ':'] [],
          " 0x0 - main\nat ".data ++ X, pos + 2) := rfl
    have hws1 : Pest.skipWs (" 0x0 - main\nat ".data ++ X) (pos + 2) =
        ("0x0 - main\nat ".data ++ X, pos + 2 + 1) := rfl
    have hPtr : Pest.pFramePointer ("0x0 - main\nat ".data ++ X) (pos + 2 + 1) =
        .ok (Pest.Pair.mk .frame_pointer ['0', 'x', '0'] [],
          " - main\nat ".data ++ X, pos + 2 + 1 + 3) := rfl
    have hws2 : Pest.skipWs (" - main\nat ".data ++ X) (pos + 2 + 1 + 3) =
        ("- main\nat ".data ++ X, pos + 2 + 1 + 3 + 1) := rfl
    simp only [Pest.pFrame, hIdx, hws1, hPtr, hws2, hs]
  -- the whole document
  have htok : Pest.tokenize (("stack backtrace: 0: 0x0 - main\nat ".data ++ (p0 :: path2)) ++ ':' :: l0 :: line2) =
      .ok [Pest.Pair.mk .frame []
        [Pest.Pair.mk .frame_index ['0', ':'] [],
         Pest.Pair.mk .frame_pointer ['0', 'x', '0'] [],
         Pest.Pair.mk .symbol_non_empty []
          [Pest.Pair.mk .symbol_name_known "main".data [],
           Pest.Pair.mk .symbol_location ((p0 :: path2) ++ ':' :: l0 :: line2)
            [Pest.Pair.mk .symbol_location_path (p0 :: path2) [],
             Pest.Pair.mk .symbol_location_lineno (l0 :: line2) []]]]] := by
    obtain ⟨q, hf⟩ := hframe 17
    have hshape : ("stack backtrace: 0: 0x0 - main\nat ".data ++ (p0 :: path2)) ++ ':' :: l0 :: line2
        = Comb.headerChars ++ (' ' :: ("0: 0x0 - main\nat ".data ++ X)) := rfl
    rw [hshape]
    have hlit : Pest.lit Comb.headerChars
        (Comb.headerChars ++ (' ' :: ("0: 0x0 - main\nat ".data ++ X))) 0 =
        some (' ' :: ("0: 0x0 - main\nat ".data ++ X), 16) := rfl
    have hws : Pest.skipWs (' ' :: ("0: 0x0 - main\nat ".data ++ X)) 16 =
        ("0: 0x0 - main\nat ".data ++ X, 17) := rfl
    have hLoop : Pest.pFramesLoop (List.length ([] : Input)) [] q [] = ([], [], q) := rfl
    have hwsEnd : Pest.skipWs ([] : Input) q = ([], q) := rfl
    simp only [Pest.tokenize, hlit, hws, hf, hLoop, hwsEnd]
  -- through the public surface
  simp only [LibRs.parseMatrix, LibRs.Backtrace.parse, htok, LibRs.Backtrace.matrix,
    LibRs.Backtrace.frames, LibRs.Frames.toList, LibRs.framesToListAux,
    LibRs.Frames.next, LibRs.Frame.symbols, LibRs.Symbols.toList,
    LibRs.symbolsToListAux, LibRs.Symbols.next, Pest.Pair.inner, Pest.Pair.rule,
    Pest.Pair.span, List.length, List.map, parseU32]

/-- **C1.**  For every location clause `at PATH:LINE` recognized by the
grammar (PATH nonempty, containing no `:`, not starting with whitespace;
LINE a nonempty digit string), the public parse of `src/lib.rs` succeeds,
`filename()` is `Some(PATH)`, and `lineno()` is `Some(LINE)` exactly when
the digits fit an unsigned 32-bit integer and `None` otherwise — overflow
degrades only the `lineno` field, never the symbol, the frame, or the
whole parse. -/
theorem c1_location_overflow_degrades_lineno (path line : Input)
    (hp0 : path ≠ []) (hp1 : ':' ∉ path) (hp2 : headFails Pest.isWsChar path)
    (hl0 : line ≠ []) (hl1 : ∀ c ∈ line, c.isDigit = true) :
    LibRs.parseMatrix ("stack backtrace: 0: 0x0 - main\nat ".data ++ path ++ ':' :: line) =
      .ok [[{ name := some "main".data, filename := some path,
              lineno := if digitsToNat line < 2 ^ 32 then some (digitsToNat line)
                else none }]] :=
  pestLocationParse path line hp0 hp1 hp2 hl0 hl1

/-- Witness for C1 at the crate's own overflow test path and line. -/
theorem c1_witness :
    LibRs.parseMatrix ("stack backtrace: 0: 0x0 - main\nat ".data ++
        "src/main.rs".data ++ ':' :: "1208925819614629174706176".data) =
      .ok [[{ name := some "main".data, filename := some "src/main.rs".data,
              lineno := if digitsToNat "1208925819614629174706176".data < 2 ^ 32 then
                some (digitsToNat "1208925819614629174706176".data) else none }]] :=
  c1_location_overflow_degrades_lineno "src/main.rs".data
    "1208925819614629174706176".data (by decide) (by decide) (by decide)
    (by decide) (by decide)


/-! ## C9: where the two implementations agree and where they diverge -/

theorem pskip_none_right {p : P α} {q : P β} {l rest : Input} {a : α}
    (h1 : p l = some (a, rest)) (h2 : q rest = none) : pskip p q l = none := by
  simp only [pskip, h1, h2]

theorem headFails_isWsChar {l : Input} (h : headFails Char.isWhitespace l) :
    headFails Pest.isWsChar l := by
  cases l with
  | nil => trivial
  | cons c t =>
    have hc := headFails_cons.mp h
    refine headFails_cons.mpr ?_
    simp only [Pest.isWsChar, Bool.or_eq_false_iff, beq_eq_false_iff_ne, ne_eq]
    constructor
    · rintro rfl
      exact absurd hc (by decide)
    · rintro rfl
      exact absurd hc (by decide)

/-- The symbol value `{ name: Some("main"), filename, lineno }` produced for
the one-location-clause document family. -/
def mainSym (filename : Option (List Char)) (lineno : Option Nat) : Symbol :=
  ⟨some "main".data, filename, lineno⟩

/-- Shared helper: the combinator-side parse of the same one-location-clause
document: it succeeds with the same symbol exactly when the line number fits
32 bits, and fails the whole parse otherwise (the unconsumed location text
then reaches `eof`). -/
theorem combLocationParse (path line : Input)
    (hp0 : path ≠ []) (hp1 : ':' ∉ path) (hp2 : headFails Char.isWhitespace path)
    (hl0 : line ≠ []) (hl1 : ∀ c ∈ line, c.isDigit = true) :
    Comb.parse ("stack backtrace: 0: 0x0 - main\nat ".data ++ path ++ ':' :: line) =
      (if digitsToNat line < 2 ^ 32 then
        some ⟨[⟨[mainSym (some path) (some (digitsToNat line))]⟩]⟩
      else none) := by
  obtain ⟨p0, path2, rfl⟩ : ∃ c cs, path = c :: cs := by
    cases path with
    | nil => exact absurd rfl hp0
    | cons a b => exact ⟨a, b, rfl⟩
  obtain ⟨l0, line2, rfl⟩ : ∃ c cs, line = c :: cs := by
    cases line with
    | nil => exact absurd rfl hl0
    | cons a b => exact ⟨a, b, rfl⟩
  set X : Input := (p0 :: path2) ++ ':' :: l0 :: line2 with hXdef
  have hWfail : headFails Char.isWhitespace X := by
    rw [hXdef]
    exact headFails_append hp0 hp2
  have htu : take_until ':' X = some (p0 :: path2, ':' :: l0 :: line2) := by
    rw [hXdef]
    exact takeUntilAux_append hp1
  have htw1 : take_while1 Char.isDigit (l0 :: line2) = some (l0 :: line2, []) := by
    simp only [take_while1, takeWhile_all hl1, dropWhile_all hl1]
  have hsl : Comb.symbol_location X =
      (if digitsToNat (l0 :: line2) < 2 ^ 32 then
        some ((p0 :: path2, digitsToNat (l0 :: line2)), ([] : Input)) else none) := by
    simp only [Comb.symbol_location, pand, pskip, pandThen, htu, charP_cons_self, htw1,
      parseU32]
    by_cases hf : digitsToNat (l0 :: line2) < 4294967296 <;> simp [hf]
  have hpsl : Comb.parse_symbol_location ("at ".data ++ X) =
      (if digitsToNat (l0 :: line2) < 2 ^ 32 then
        some ((p0 :: path2, digitsToNat (l0 :: line2)), ([] : Input)) else none) := by
    have hat : stringP Comb.atChars ("at ".data ++ X) = some ((), ' ' :: X) := rfl
    have hsp : spacesP (' ' :: X) = some ((), X) :=
      spacesP_append (w := [' ']) (by decide) hWfail
    simp only [Comb.parse_symbol_location, pwith, pskip, hat, hsp, hsl]
  have hopt : poptional (pwith spacesP Comb.parse_symbol_location)
        ('\n' :: ("at ".data ++ X)) =
      (if digitsToNat (l0 :: line2) < 2 ^ 32 then
        some (some (p0 :: path2, digitsToNat (l0 :: line2)), ([] : Input))
      else some (none, '\n' :: ("at ".data ++ X))) := by
    have hsp : spacesP ('\n' :: ("at ".data ++ X)) = some ((), "at ".data ++ X) := rfl
    simp only [poptional, pwith, hsp, hpsl]
    by_cases hf : digitsToNat (l0 :: line2) < 4294967296 <;> simp [hf]
  have hsn : Comb.symbol_name ("main\nat ".data ++ X) =
      some (some "main".data, '\n' :: ("at ".data ++ X)) := by
    have hu : stringP Comb.unknownChars ("main\nat ".data ++ X) = none := rfl
    have htu2 : take_until '\n' ("main\nat ".data ++ X) =
        some ("main".data, '\n' :: ("at ".data ++ X)) :=
      @takeUntilAux_append '\n' ("main".data) ("at ".data ++ X) (by decide)
    simp only [Comb.symbol_name, porElse, pmap, hu, htu2]
  have hps : Comb.parse_symbol ('-' :: ' ' :: ("main\nat ".data ++ X)) =
      (if digitsToNat (l0 :: line2) < 2 ^ 32 then
        some (mainSym (some (p0 :: path2)) (some (digitsToNat (l0 :: line2))),
          ([] : Input))
      else some (mainSym none none, '\n' :: ("at ".data ++ X))) := by
    have hsp : spacesP (' ' :: ("main\nat ".data ++ X)) =
        some ((), "main\nat ".data ++ X) := rfl
    simp only [Comb.parse_symbol, pmap, pand, pwith, pskip, charP_cons_self, hsp, hsn,
      hopt]
    by_cases hf : digitsToNat (l0 :: line2) < 4294967296 <;> simp [hf, mainSym]
  have hss : Comb.symStep ('-' :: ' ' :: ("main\nat ".data ++ X)) =
      (if digitsToNat (l0 :: line2) < 2 ^ 32 then
        some (mainSym (some (p0 :: path2)) (some (digitsToNat (l0 :: line2))),
          ([] : Input))
      else some (mainSym none none, '\n' :: ("at ".data ++ X))) := by
    have hnl : newlineP ('-' :: ' ' :: ("main\nat ".data ++ X)) = none :=
      charP_cons_ne (by decide)
    have hsp0 : spacesP ('-' :: ' ' :: ("main\nat ".data ++ X)) =
        some ((), '-' :: ' ' :: ("main\nat ".data ++ X)) :=
      spacesP_no_ws (headFails_cons.mpr (by decide))
    simp only [Comb.symStep, pwith, pskip, poptional, hnl, hsp0, hps]
  have hstop : Comb.symStep ('\n' :: ("at ".data ++ X)) = none := rfl
  have hA : Comb.parse_unresolved_symbols ("- main\nat ".data ++ X) = none := rfl
  have hB : Comb.parse_empty_symbols ("- main\nat ".data ++ X) = none := rfl
  have hfs : Comb.frame_symbols ("- main\nat ".data ++ X) =
      (if digitsToNat (l0 :: line2) < 2 ^ 32 then
        some ([mainSym (some (p0 :: path2)) (some (digitsToNat (l0 :: line2)))],
          ([] : Input))
      else some ([mainSym none none], '\n' :: ("at ".data ++ X))) := by
    by_cases hf : digitsToNat (l0 :: line2) < 2 ^ 32
    · rw [if_pos hf]
      rw [if_pos hf] at hss
      exact (porElse_none hA).trans ((porElse_none hB).trans (many1P_eval hss rfl))
    · rw [if_neg hf]
      rw [if_neg hf] at hss
      exact (porElse_none hA).trans ((porElse_none hB).trans
        (many1P_eval hss (manyAux_none hstop _)))
  have hidx : Comb.frame_index ("0: 0x0 - main\nat ".data ++ X) =
      some (0, " 0x0 - main\nat ".data ++ X) := rfl
  have hsp1 : spacesP (" 0x0 - main\nat ".data ++ X) =
      some ((), "0x0 - main\nat ".data ++ X) := rfl
  have hptr : Comb.frame_pointer ("0x0 - main\nat ".data ++ X) =
      some (0, " - main\nat ".data ++ X) := rfl
  have hsp2 : spacesP (" - main\nat ".data ++ X) =
      some ((), "- main\nat ".data ++ X) := rfl
  have hfr : Comb.frameP ("0: 0x0 - main\nat ".data ++ X) =
      (if digitsToNat (l0 :: line2) < 2 ^ 32 then
        some (⟨[mainSym (some (p0 :: path2)) (some (digitsToNat (l0 :: line2)))]⟩,
          ([] : Input))
      else some (⟨[mainSym none none]⟩, '\n' :: ("at ".data ++ X))) := by
    by_cases hf : digitsToNat (l0 :: line2) < 2 ^ 32
    · rw [if_pos hf]
      rw [if_pos hf] at hfs
      exact pmap_eval (pand_eval (pskip_eval (pand_eval (pskip_eval hidx hsp1) hptr)
        hsp2) hfs)
    · rw [if_neg hf]
      rw [if_neg hf] at hfs
      exact pmap_eval (pand_eval (pskip_eval (pand_eval (pskip_eval hidx hsp1) hptr)
        hsp2) hfs)
  have hfull : ("stack backtrace: 0: 0x0 - main\nat ".data ++ (p0 :: path2)) ++ ':' :: l0 :: line2
      = Comb.headerChars ++ (' ' :: ("0: 0x0 - main\nat ".data ++ X)) := rfl
  have hhdr : stringP Comb.headerChars
      (Comb.headerChars ++ (' ' :: ("0: 0x0 - main\nat ".data ++ X))) =
      some ((), ' ' :: ("0: 0x0 - main\nat ".data ++ X)) := rfl
  have hsph : spacesP (' ' :: ("0: 0x0 - main\nat ".data ++ X)) =
      some ((), "0: 0x0 - main\nat ".data ++ X) := rfl
  rw [hfull]
  by_cases hf : digitsToNat (l0 :: line2) < 2 ^ 32
  · rw [if_pos hf]
    rw [if_pos hf] at hfr
    have hstep : pwith spacesP Comb.frameP (' ' :: ("0: 0x0 - main\nat ".data ++ X)) =
        some (⟨[mainSym (some (p0 :: path2)) (some (digitsToNat (l0 :: line2)))]⟩,
          ([] : Input)) :=
      pwith_eval hsph hfr
    have hm : many1P (pwith spacesP Comb.frameP)
        (' ' :: ("0: 0x0 - main\nat ".data ++ X)) =
        some ([⟨[mainSym (some (p0 :: path2)) (some (digitsToNat (l0 :: line2)))]⟩],
          ([] : Input)) :=
      many1P_eval hstep rfl
    have hbt : Comb.backtraceP
        (Comb.headerChars ++ (' ' :: ("0: 0x0 - main\nat ".data ++ X))) =
        some (⟨[⟨[mainSym (some (p0 :: path2)) (some (digitsToNat (l0 :: line2)))]⟩]⟩,
          ([] : Input)) :=
      pmap_eval (pwith_eval hhdr hm)
    have hrun : pskip (pskip Comb.backtraceP spacesP) eofP
        (Comb.headerChars ++ (' ' :: ("0: 0x0 - main\nat ".data ++ X))) =
        some (⟨[⟨[mainSym (some (p0 :: path2)) (some (digitsToNat (l0 :: line2)))]⟩]⟩,
          ([] : Input)) :=
      pskip_eval (pskip_eval hbt (rfl : spacesP [] = some ((), [])))
        (rfl : eofP [] = some ((), []))
    simp only [Comb.parse, hrun]
  · rw [if_neg hf]
    rw [if_neg hf] at hfr
    have hstep : pwith spacesP Comb.frameP (' ' :: ("0: 0x0 - main\nat ".data ++ X)) =
        some (⟨[mainSym none none]⟩, '\n' :: ("at ".data ++ X)) :=
      pwith_eval hsph hfr
    have hstepfail : pwith spacesP Comb.frameP ('\n' :: ("at ".data ++ X)) = none := by
      have h1 : spacesP ('\n' :: ("at ".data ++ X)) = some ((), "at ".data ++ X) := rfl
      have h2 : Comb.frameP ("at ".data ++ X) = none := by
        have h3 : Comb.frame_index ("at ".data ++ X) = none := rfl
        simp only [Comb.frameP, pmap, pand, pskip, h3]
      simp only [pwith, h1, h2]
    have hm : many1P (pwith spacesP Comb.frameP)
        (' ' :: ("0: 0x0 - main\nat ".data ++ X)) =
        some ([⟨[mainSym none none]⟩], '\n' :: ("at ".data ++ X)) :=
      many1P_eval hstep (manyAux_none hstepfail _)
    have hbt : Comb.backtraceP
        (Comb.headerChars ++ (' ' :: ("0: 0x0 - main\nat ".data ++ X))) =
        some (⟨[⟨[mainSym none none]⟩]⟩, '\n' :: ("at ".data ++ X)) :=
      pmap_eval (pwith_eval hhdr hm)
    have h1 : pskip Comb.backtraceP spacesP
        (Comb.headerChars ++ (' ' :: ("0: 0x0 - main\nat ".data ++ X))) =
        some (⟨[⟨[mainSym none none]⟩]⟩, "at ".data ++ X) :=
      pskip_eval hbt
        (rfl : spacesP ('\n' :: ("at ".data ++ X)) = some ((), "at ".data ++ X))
    have hrun : pskip (pskip Comb.backtraceP spacesP) eofP
        (Comb.headerChars ++ (' ' :: ("0: 0x0 - main\nat ".data ++ X))) = none :=
      pskip_none_right h1 (rfl : eofP ("at ".data ++ X) = none)
    simp only [Comb.parse, hrun]

/-- **C9 (amended).**  The two implementations are not behaviorally
equivalent (see the counterexample: they diverge on line-number overflow,
on a name token at end of input, and on frame-index overflow).  On the
one-location-clause documents `stack backtrace: 0: 0x0 - main\nat PATH:LINE`
(plain path, digit line number) the two implementations produce value-equal
results exactly when the line number fits 32 bits: when it fits both
succeed with the same frame/symbol content, and when it overflows the
grammar-engine implementation succeeds with `lineno = None` while the
combinator implementation fails the whole parse. -/
theorem c9_amended_family_agreement_iff_fits (path line : Input)
    (hp0 : path ≠ []) (hp1 : ':' ∉ path) (hp2 : headFails Char.isWhitespace path)
    (hl0 : line ≠ []) (hl1 : ∀ c ∈ line, c.isDigit = true) :
    (digitsToNat line < 2 ^ 32 →
      (Comb.parse ("stack backtrace: 0: 0x0 - main\nat ".data ++ path ++ ':' :: line)).map
          combMatrix =
        some [[mainSym (some path) (some (digitsToNat line))]]
      ∧ LibRs.parseMatrix
          ("stack backtrace: 0: 0x0 - main\nat ".data ++ path ++ ':' :: line) =
        .ok [[mainSym (some path) (some (digitsToNat line))]])
    ∧ (¬ digitsToNat line < 2 ^ 32 →
      Comb.parse ("stack backtrace: 0: 0x0 - main\nat ".data ++ path ++ ':' :: line) =
        none
      ∧ LibRs.parseMatrix
          ("stack backtrace: 0: 0x0 - main\nat ".data ++ path ++ ':' :: line) =
        .ok [[mainSym (some path) none]]) := by
  have hcomb := combLocationParse path line hp0 hp1 hp2 hl0 hl1
  have hpest := pestLocationParse path line hp0 hp1 (headFails_isWsChar hp2) hl0 hl1
  constructor
  · intro hf
    rw [if_pos hf] at hcomb hpest
    refine ⟨?_, hpest⟩
    rw [hcomb]
    simp [combMatrix, mainSym]
  · intro hf
    rw [if_neg hf] at hcomb hpest
    exact ⟨hcomb, hpest⟩

/-- Witness for C9 (amended) at the crate's own overflow test path/line. -/
theorem c9_amended_witness :
    ((digitsToNat "1208925819614629174706176".data < 2 ^ 32 →
      (Comb.parse ("stack backtrace: 0: 0x0 - main\nat ".data ++ "src/main.rs".data ++
          ':' :: "1208925819614629174706176".data)).map combMatrix =
        some [[mainSym (some "src/main.rs".data)
          (some (digitsToNat "1208925819614629174706176".data))]]
      ∧ LibRs.parseMatrix ("stack backtrace: 0: 0x0 - main\nat ".data ++
          "src/main.rs".data ++ ':' :: "1208925819614629174706176".data) =
        .ok [[mainSym (some "src/main.rs".data)
          (some (digitsToNat "1208925819614629174706176".data))]])
    ∧ (¬ digitsToNat "1208925819614629174706176".data < 2 ^ 32 →
      Comb.parse ("stack backtrace: 0: 0x0 - main\nat ".data ++ "src/main.rs".data ++
          ':' :: "1208925819614629174706176".data) = none
      ∧ LibRs.parseMatrix ("stack backtrace: 0: 0x0 - main\nat ".data ++
          "src/main.rs".data ++ ':' :: "1208925819614629174706176".data) =
        .ok [[mainSym (some "src/main.rs".data) none]])) :=
  c9_amended_family_agreement_iff_fits "src/main.rs".data
    "1208925819614629174706176".data (by decide) (by decide) (by decide) (by decide)
    (by decide)

end Backtrace
